import Mathlib

/-!
Verification of the step-resolution pipeline of the esldemo repository
(`src/server/index.js` and `src/client/src/App.jsx`).

JavaScript values are modelled by the `JValue` type below: JSON data plus
the distinction between `null` and `undefined` (property access on a missing
key yields `undefined`). JSON numbers are modelled as integers: every number
the claims exercise (orders, HTTP statuses) is integral. Objects are
association lists in insertion order; lookups take the first matching key
(objects produced by `JSON.parse` have unique keys).
-/

inductive JValue where
  | undefined
  | jnull
  | jbool (b : Bool)
  | jnum (n : Int)
  | jstr (s : String)
  | jarr (elems : List JValue)
  | jobj (fields : List (String × JValue))

namespace JValue

/-- JavaScript truthiness. `NaN` is not representable in this model;
empty array and empty object are truthy, as in JavaScript. -/
def truthy : JValue → Bool
  | .undefined => false
  | .jnull => false
  | .jbool b => b
  | .jnum n => n != 0
  | .jstr s => s ≠ ""
  | .jarr _ => true
  | .jobj _ => true

/-- Property access with optional chaining, `v?.k`: `undefined` on
non-objects and missing keys. (Property access on primitives other than
objects yields `undefined` for the keys used by this program.) -/
def jget (v : JValue) (k : String) : JValue :=
  match v with
  | .jobj fields =>
    match fields.find? (fun p => p.1 = k) with
    | some p => p.2
    | none => .undefined
  | _ => .undefined

/-- `a || b` in JavaScript. -/
def jsOr (a b : JValue) : JValue := if a.truthy then a else b

/-- Key presence on an object (`"k" in o`-style; used to state that a
resolved step carries a key). -/
def hasKey (v : JValue) (k : String) : Bool :=
  match v with
  | .jobj fields => fields.any (fun p => p.1 = k)
  | _ => false

/-- Set a key on an association list, JavaScript object-literal semantics:
an existing key keeps its position and takes the new value, a new key is
appended. -/
def setAssoc (fields : List (String × JValue)) (k : String) (v : JValue) :
    List (String × JValue) :=
  if fields.any (fun p => p.1 = k) then
    fields.map (fun p => if p.1 = k then (p.1, v) else p)
  else fields ++ [(k, v)]

/-- `\x7b...obj, k: v\x7d` object spread with one extra key. Spreading a
non-object produces an object with only the extra key (a spread string
would contribute numeric index keys, never the named keys this program
reads; that corner is collapsed here). -/
def jset (v : JValue) (k : String) (w : JValue) : JValue :=
  match v with
  | .jobj fields => .jobj (setAssoc fields k w)
  | _ => .jobj [(k, w)]

/-- Spread-merge of two association lists, `\x7b...a, ...b\x7d`:
keys of `a` in order with values overridden by `b`, then new keys of `b`. -/
def spreadAssoc (a b : List (String × JValue)) : List (String × JValue) :=
  (a ++ b).foldl (fun acc p => setAssoc acc p.1 p.2) []

/-- `Array.isArray(v) ? v : []` — the guard used throughout the server. -/
def asArr : JValue → List JValue
  | .jarr xs => xs
  | _ => []

/-- JavaScript `String(v)` for the values this program stringifies (step
names and field names are strings or absent). Array coercion is a recursive
comma-join in JavaScript; collapsed to `""` here, as the program never
stringifies array-valued names. -/
def jsToString : JValue → String
  | .undefined => "undefined"
  | .jnull => "null"
  | .jbool b => if b then "true" else "false"
  | .jnum n => toString n
  | .jstr s => s
  | .jarr _ => ""
  | .jobj _ => "[object Object]"

/-- Integer parse of a JavaScript numeric string (sign and digits, with
surrounding whitespace; the empty string coerces to `0`). Fractional,
hexadecimal and exponent forms are not modelled: the override configuration
carries plain JSON numbers. -/
def parseJsIntString (s : String) : Option Int :=
  let t := s.trim
  if t = "" then some 0
  else
    let (sign, digits) :=
      if t.startsWith "-" then ((-1 : Int), t.drop 1)
      else if t.startsWith "+" then (1, t.drop 1)
      else (1, t)
    if digits ≠ "" ∧ digits.all Char.isDigit then
      some (sign * (digits.toNat!))
    else none

/-- JavaScript `Number(v)` restricted to finite integral results
(`none` = `NaN`/non-finite). `Number(null) = 0`, `Number(undefined) = NaN`.
Array and object coercion (via `toString`) is collapsed to `NaN`; the
override configuration carries plain JSON numbers. -/
def jsToNumber : JValue → Option Int
  | .undefined => none
  | .jnull => some 0
  | .jbool b => some (if b then 1 else 0)
  | .jnum n => some n
  | .jstr s => parseJsIntString s
  | .jarr _ => none
  | .jobj _ => none

end JValue

open JValue

/-!
## Errors

A thrown value is either a local `new Error(msg)` (no `response` property)
or an axios error carrying the upstream `response.status`, `response.data`
and a `message` string.
-/

inductive JsError where
  | thrown (msg : String)
  | http (status : Int) (data : JValue) (msg : String)

/-- `error.response?.data || error.message`, the `details` of every
handler's error body. -/
def JsError.details : JsError → JValue
  | .thrown msg => .jstr msg
  | .http _ data msg => if data.truthy then data else .jstr msg

/-!
## Custom-processor orchestrator (`runCallCustomProcessorActions`,
src/server/index.js lines 349-426)

The remote engine is an oracle `call : Nat → Except JsError JValue` giving
the outcome of the i-th action invocation of a resolution pass. The
function returns the number of invocations actually performed together
with the result (`Except` models `throw`).
-/

/-- The enrichment accumulator of `runCallCustomProcessorActions`:
`availableOffers` starts `[]`, the three singletons start `null`. -/
structure Enrichment where
  availableOffers : List JValue
  esignUrl : Option String
  personaResponse : Option JValue
  stripePaymentDetails : Option JValue

def emptyEnrichment : Enrichment :=
  { availableOffers := [], esignUrl := none
    personaResponse := none, stripePaymentDetails := none }

/-- An entry of `step.stepActions` qualifies when
`action?.type === "callCustomProcessor"` and `action?.id` is truthy. -/
def isQualAction (a : JValue) : Bool :=
  (match a.jget "type" with
   | .jstr s => s = "callCustomProcessor"
   | _ => false) && (a.jget "id").truthy

/-- The qualifying actions of a step, in declaration order. -/
def qualActions (step : JValue) : List JValue :=
  ((step.jget "stepActions").asArr).filter isQualAction

/-- `if (Array.isArray(actionOffers)) availableOffers.push(...)`. -/
def foldOffers (acc : Enrichment) (resp : JValue) : Enrichment :=
  match resp.jget "availableOffers" with
  | .jarr xs => { acc with availableOffers := acc.availableOffers ++ xs }
  | _ => acc

/-- `if (typeof actionEsignUrl === "string" && actionEsignUrl.trim())
esignUrl = actionEsignUrl`. -/
def foldEsign (acc : Enrichment) (resp : JValue) : Enrichment :=
  match resp.jget "esignUrl" with
  | .jstr s => if s.trim ≠ "" then { acc with esignUrl := some s } else acc
  | _ => acc

/-- `personaResponse = actionPersonaResponse` when it is a truthy
non-array object. -/
def foldPersona (acc : Enrichment) (resp : JValue) : Enrichment :=
  match resp.jget "personaResponse" with
  | .jobj fs => { acc with personaResponse := some (.jobj fs) }
  | _ => acc

/-- `stripePaymentDetails = actionStripePaymentDetails` when it is a
truthy non-array object. -/
def foldStripe (acc : Enrichment) (resp : JValue) : Enrichment :=
  match resp.jget "stripePaymentDetails" with
  | .jobj fs => { acc with stripePaymentDetails := some (.jobj fs) }
  | _ => acc

/-- One loop iteration of `runCallCustomProcessorActions`: fold the
fragments of `actionResult?.actionResponse` into the accumulator, in
statement order. -/
def foldAction (acc : Enrichment) (actionResult : JValue) : Enrichment :=
  let resp := (actionResult.jget "actionResponse")
  foldStripe (foldPersona (foldEsign (foldOffers acc resp) resp) resp) resp

/-- The `for (const action of callCustomProcessorActions)` loop: `i` calls
already made, `todo` remaining. A failing remote call counts as made and
rethrows. -/
def runActionsLoop (call : Nat → Except JsError JValue) (acc : Enrichment)
    (i : Nat) : Nat → Nat × Except JsError Enrichment
  | 0 => (i, .ok acc)
  | todo + 1 =>
    match call i with
    | .error e => (i + 1, .error e)
    | .ok r => runActionsLoop call (foldAction acc r) (i + 1) todo

/-- `runCallCustomProcessorActions(token, step)` as a function of the
remote oracle. Returns (number of action invocations, result). -/
def runCallCustomProcessorActions (call : Nat → Except JsError JValue)
    (step : JValue) : Nat × Except JsError Enrichment :=
  let qual := qualActions step
  if qual.length = 0 then
    (0, .ok emptyEnrichment)
  else
    let externalId := jsOr (step.jget "externalId") (step.jget "instanceId")
    if ¬ externalId.truthy then
      (0, .error (.thrown
        "Cannot call custom processors: missing externalId/instanceId in step payload"))
    else
      runActionsLoop call emptyEnrichment 0 qual.length

/-!
Specification-side extraction of per-action fragments, used to state the
fold laws of claim C1.
-/

/-- The offers fragment an action contributes: the elements of
`actionResponse.availableOffers` when it is an array, else nothing. -/
def offersFrag (r : JValue) : List JValue :=
  match (r.jget "actionResponse").jget "availableOffers" with
  | .jarr xs => xs
  | _ => []

/-- The e-sign fragment: `actionResponse.esignUrl` when it is a string
with non-blank content. -/
def esignFrag (r : JValue) : Option String :=
  match (r.jget "actionResponse").jget "esignUrl" with
  | .jstr s => if s.trim ≠ "" then some s else none
  | _ => none

/-- The identity-verification fragment: `actionResponse.personaResponse`
when it is a well-formed (non-array, non-null) object. -/
def personaFrag (r : JValue) : Option JValue :=
  match (r.jget "actionResponse").jget "personaResponse" with
  | .jobj fs => some (.jobj fs)
  | _ => none

/-- The payment fragment: `actionResponse.stripePaymentDetails` when it is
a well-formed (non-array, non-null) object. -/
def stripeFrag (r : JValue) : Option JValue :=
  match (r.jget "actionResponse").jget "stripePaymentDetails" with
  | .jobj fs => some (.jobj fs)
  | _ => none

/-- One assignment step of a singleton slot: a `some` overwrites, a
`none` keeps the accumulator. -/
def ostep {α : Type} (acc o : Option α) : Option α :=
  match o with
  | some x => some x
  | none => acc

/-- The last `some` of a list of options (last well-formed value wins;
`none` entries never overwrite). -/
def lastSome {α : Type} (l : List (Option α)) : Option α :=
  l.foldl ostep none


/-!
## Step override resolver (src/server/index.js lines 428-620)

The configuration file is modelled by `ConfigSource`: missing, or present
with raw contents and the outcome of `JSON.parse` (an oracle, since JSON
parsing is not re-implemented here; `none` models a parse throw).
-/

inductive ConfigSource where
  | missing
  | file (raw : String) (parsed : Option JValue)

/-- `normalizeStepKey(value)`:
`String(value || "").trim().toLowerCase()`. -/
def normalizeStepKey (v : JValue) : String :=
  (jsToString (jsOr v (.jstr ""))).trim.toLower

/-- `loadStepOverridesConfig()`: `null` when the file is missing, blank,
unparsable, falsy or not of JavaScript type "object" (arrays pass this
typeof test, `null` is falsy). -/
def loadStepOverridesConfig : ConfigSource → Option JValue
  | .missing => none
  | .file raw parsed =>
    if raw.trim = "" then none
    else
      match parsed with
      | none => none
      | some p =>
        match p with
        | .jobj _ => some p
        | .jarr _ => some p
        | _ => none

/-- `findStepOverride(step, overridesConfig)`: the first step entry of the
configured flows whose normalized `journeyStep` equals the step's, after
the optional `journeyName` scope filter. -/
def findStepOverride (step cfg : JValue) : Option JValue :=
  if ¬ step.truthy ∨ ¬ cfg.truthy then none
  else if (cfg.jget "journeyName").truthy ∧ (step.jget "journeyName").truthy ∧
      normalizeStepKey (cfg.jget "journeyName") ≠
        normalizeStepKey (step.jget "journeyName") then none
  else
    let stepKey := normalizeStepKey (step.jget "journeyStep")
    if stepKey = "" then none
    else
      ((cfg.jget "formDrivenFlows").asArr).findSome? (fun flow =>
        ((flow.jget "steps").asArr).find? (fun c =>
          normalizeStepKey (c.jget "journeyStep") = stepKey))

/-- `getFieldOrder(overrideField, fallbackIndex)`: the first finite numeric
of `orderIdx` then `orderIndex`, else the fallback index. -/
def getFieldOrder (f : JValue) (fallbackIndex : Nat) : Int :=
  match jsToNumber (f.jget "orderIdx") with
  | some n => n
  | none =>
    match jsToNumber (f.jget "orderIndex") with
    | some n => n
    | none => fallbackIndex

/-- An entry of the `byFieldName` map of `applyFieldOverrides`. -/
structure OverrideEntry where
  order : Int
  hasVisibility : Bool
  isVisible : JValue
  ui : List (String × JValue)

/-- The conditional `ui` override object built per override field
(each key only when the configured value has the expected type). -/
def overrideUi (f : JValue) : List (String × JValue) :=
  (match f.jget "placeholder" with
   | .jstr s => [("placeholder", JValue.jstr s)] | _ => []) ++
  (match f.jget "inputType" with
   | .jstr s => [("inputType", JValue.jstr s)] | _ => []) ++
  (match f.jget "mask" with
   | .jstr s => [("mask", JValue.jstr s)] | _ => []) ++
  (match f.jget "phoneCountrySelect" with
   | .jbool b => [("phoneCountrySelect", JValue.jbool b)] | _ => []) ++
  (match f.jget "defaultCountryCode" with
   | .jstr s => [("defaultCountryCode", JValue.jstr s)] | _ => []) ++
  (match f.jget "phoneCountries" with
   | .jarr xs => [("phoneCountries", JValue.jarr xs)] | _ => [])

def mkOverrideEntry (f : JValue) (i : Nat) : OverrideEntry :=
  { order := getFieldOrder f i
    hasVisibility := match f.jget "isVisible" with | .jbool _ => true | _ => false
    isVisible := f.jget "isVisible"
    ui := overrideUi f }

/-- The step's own field list (`Array.isArray(step?.fields) ? ... : []`). -/
def sourceFieldsOf (step : JValue) : List JValue := (step.jget "fields").asArr

/-- The override entry's field list. -/
def ovFieldsOf (ov : JValue) : List JValue := (ov.jget "fields").asArr

/-- The `byFieldName` map: keyed by `String(field?.name || "")`, skipping
blank names, first occurrence wins. -/
def buildByFieldName (ovFields : List JValue) : List (String × OverrideEntry) :=
  (ovFields.enum).foldl (fun acc p =>
    let name := jsToString (jsOr (p.2.jget "name") (.jstr ""))
    if name = "" ∨ acc.any (fun q => q.1 = name) then acc
    else acc ++ [(name, mkOverrideEntry p.2 p.1)]) []

/-- Number.MAX_SAFE_INTEGER, the sort order of un-overridden fields. -/
def MAX_SAFE_INTEGER : Int := 2 ^ 53 - 1

/-- A decorated field as built inside `applyFieldOverrides` before
sorting: the (possibly merged) field, its original index, whether an
override matched, and its sort order. -/
structure FieldDec where
  field : JValue
  index : Nat
  hasOverride : Bool
  order : Int

/-- Apply a matched override entry to a live field: replace `isVisible`
only when the configured value is a boolean, and shallow-merge `ui` hints
(configuration wins) when any are configured. A matched field is an object
(its `name` was truthy), so the identity spread is the identity here. -/
def mergedFieldOf (f : JValue) (e : OverrideEntry) : JValue :=
  let f1 := if e.hasVisibility then jset f "isVisible" e.isVisible else f
  if ¬ e.ui.isEmpty then
    jset f1 "ui" (.jobj (spreadAssoc
      (match f.jget "ui" with | .jobj fs => fs | _ => []) e.ui))
  else f1

/-- Decorate one `(index, field)` pair of the source list with its
override data (one element of the `.map` stage of `applyFieldOverrides`). -/
def decorateEntry (byName : List (String × OverrideEntry))
    (p : Nat × JValue) : FieldDec :=
  let name := jsToString (jsOr (p.2.jget "name") (.jstr ""))
  match byName.find? (fun q => q.1 = name) with
  | some q =>
    { field := mergedFieldOf p.2 q.2, index := p.1
      hasOverride := true, order := q.2.order }
  | none =>
    { field := p.2, index := p.1
      hasOverride := false, order := MAX_SAFE_INTEGER }

/-- Decorate every source field with its override data
(the `.map` stage of `applyFieldOverrides`). -/
def decorate (step ov : JValue) : List FieldDec :=
  ((sourceFieldsOf step).enum).map
    (decorateEntry (buildByFieldName (ovFieldsOf ov)))

/-- The sort comparator of `applyFieldOverrides` as a boolean "at most"
relation (comparator result at most 0): order ascending, then overridden
before un-overridden, then original index. -/
def decLE (a b : FieldDec) : Bool :=
  if a.order ≠ b.order then decide (a.order < b.order)
  else if a.hasOverride ≠ b.hasOverride then a.hasOverride
  else decide (a.index ≤ b.index)

/-- The comparator as a proposition. -/
def decLEP (a b : FieldDec) : Prop := decLE a b = true

instance : DecidableRel decLEP := fun a b => by
  unfold decLEP
  infer_instance

/-- The decorated list after the `.sort(...)` call. The comparator is a
total preorder whose final tie-break is the original index, and the
indexes of the decorated entries are pairwise distinct, so the sorted
arrangement is unique: any correct sort (V8's stable sort included)
produces this list. It is embedded as an insertion sort, which computes
by reduction. -/
def sortedDecorated (step ov : JValue) : List FieldDec :=
  (decorate step ov).insertionSort decLEP

/-- The final visibility filter: keep fields whose `isVisible` is not
identically `false`. -/
def visKeep (f : JValue) : Bool :=
  match f.jget "isVisible" with
  | .jbool false => false
  | _ => true

/-- `applyFieldOverrides(step, stepOverride)`. -/
def applyFieldOverrides (step ov : JValue) : JValue :=
  if (sourceFieldsOf step).isEmpty then step
  else if (ovFieldsOf ov).isEmpty then step
  else
    jset step "fields"
      (.jarr (((sortedDecorated step ov).map FieldDec.field).filter visKeep))

/-- `applyStepOverrides(step)`, with the configuration file as an explicit
source. -/
def applyStepOverrides (src : ConfigSource) (step : JValue) : JValue :=
  match loadStepOverridesConfig src with
  | none => step
  | some cfg =>
    match findStepOverride step cfg with
    | none => step
    | some ovEntry => applyFieldOverrides step ovEntry

/-!
## Resolution pipeline and retry (src/server/index.js lines 628-672)
-/

def optStrToJ : Option String → JValue
  | none => .jnull
  | some s => .jstr s

def optJToJ : Option JValue → JValue
  | none => .jnull
  | some v => v

/-- The enrichment spread of `loadStepAndRunCustomProcessors`:
`\x7b...stepWithOverrides, availableOffers, esignUrl, personaResponse,
stripePaymentDetails\x7d`. -/
def mergeStepEnrichment (s : JValue) (enr : Enrichment) : JValue :=
  jset (jset (jset (jset s
    "availableOffers" (.jarr enr.availableOffers))
    "esignUrl" (optStrToJ enr.esignUrl))
    "personaResponse" (optJToJ enr.personaResponse))
    "stripePaymentDetails" (optJToJ enr.stripePaymentDetails)

/-- `loadStepAndRunCustomProcessors(token, externalId)` over a load
oracle, an action-call oracle and the override configuration. Returns
(number of action invocations, result). -/
def loadStepAndRunCustomProcessors (load : Except JsError JValue)
    (call : Nat → Except JsError JValue) (cfg : ConfigSource) :
    Nat × Except JsError JValue :=
  match load with
  | .error e => (0, .error e)
  | .ok step =>
    let stepWithOverrides := applyStepOverrides cfg step
    match runCallCustomProcessorActions call stepWithOverrides with
    | (n, .error e) => (n, .error e)
    | (n, .ok enr) => (n, .ok (mergeStepEnrichment stepWithOverrides enr))

/-- The retry guard of `loadStepWithRetry`:
`error.response?.status === 404 && (error.response?.data?.message || "")`
truthy. A locally thrown error has no `response`, so it never retries. -/
def canRetry : JsError → Bool
  | .thrown _ => false
  | .http status data _ => decide (status = 404) && (data.jget "message").truthy

/-- The `for (attempt = 1; attempt <= attempts; ...)` loop of
`loadStepWithRetry`. `r` is the number of attempts remaining after the
current one (`r = 0` means `attempt === attempts`). Returns the result,
the per-attempt action-invocation counts of every attempt executed, and
the total sleep time. With zero attempts the loop body never runs and the
code throws the initial `lastError = null`, modelled by the placeholder
error (unreachable at the call sites, which use `attempts = 4`). -/
def retryGo (resolve : Nat → Nat × Except JsError JValue) (delayMs : Nat) :
    Nat → Nat → JsError → Except JsError JValue × List Nat × Nat
  | _, 0, lastErr => (.error lastErr, [], 0)
  | attempt, r + 1, _ =>
    match resolve attempt with
    | (n, .ok v) => (.ok v, [n], 0)
    | (n, .error e) =>
      if canRetry e ∧ r ≠ 0 then
        let rest := retryGo resolve delayMs (attempt + 1) r e
        (rest.1, n :: rest.2.1, delayMs + rest.2.2)
      else (.error e, [n], 0)

/-- `loadStepWithRetry(token, externalId, attempts = 4, delayMs = 250)`
over a per-attempt resolution oracle. -/
def loadStepWithRetry (resolve : Nat → Nat × Except JsError JValue)
    (attempts : Nat := 4) (delayMs : Nat := 250) :
    Except JsError JValue × List Nat × Nat :=
  retryGo resolve delayMs 1 attempts (.thrown "null")

/-- The oracles of one navigation request: per attempt, the step-load
outcome and the per-invocation action outcomes. -/
structure ResolveEnv where
  loadStep : Nat → Except JsError JValue
  action : Nat → Nat → Except JsError JValue

/-- One full resolution pass at a given attempt number. -/
def resolveStepOnce (env : ResolveEnv) (cfg : ConfigSource) (attempt : Nat) :
    Nat × Except JsError JValue :=
  loadStepAndRunCustomProcessors (env.loadStep attempt) (env.action attempt) cfg

/-- The retrying resolver as used by the next/previous handlers. -/
def resolveWithRetry (env : ResolveEnv) (cfg : ConfigSource) :
    Except JsError JValue × List Nat × Nat :=
  loadStepWithRetry (resolveStepOnce env cfg) 4 250

/-- The number of qualifying actions an attempt's loaded step declares
(zero when the load itself fails). -/
def attemptQualCount (env : ResolveEnv) (cfg : ConfigSource) (a : Nat) : Nat :=
  match env.loadStep a with
  | .ok step => (qualActions (applyStepOverrides cfg step)).length
  | .error _ => 0

/-!
## Journey navigation handlers (src/server/index.js lines 700-911)

Each handler is a function of its request body and of oracles for every
awaited operation, returning the HTTP status and JSON body it sends.
`envErr` models a throwing `validateEnv` (the thrown message), `none` a
passing one.
-/

def errBody (label : String) (e : JsError) : JValue :=
  .jobj [("message", .jstr label), ("details", e.details)]

def initHandlerRun (envErr : Option String) (tok : Except JsError String)
    (meta start load : Except JsError JValue)
    (call : Nat → Except JsError JValue) (cfg : ConfigSource) : Nat × JValue :=
  match envErr with
  | some m => (500, errBody "Init journey failed" (.thrown m))
  | none =>
    match tok with
    | .error e => (500, errBody "Init journey failed" e)
    | .ok _ =>
      match meta with
      | .error e => (500, errBody "Init journey failed" e)
      | .ok md =>
        match start with
        | .error e => (500, errBody "Init journey failed" e)
        | .ok st =>
          let externalId := st.jget "externalId"
          if ¬ externalId.truthy then
            (500, errBody "Init journey failed"
              (.thrown "Start Journey did not return externalId"))
          else
            match (loadStepAndRunCustomProcessors load call cfg).2 with
            | .error e => (500, errBody "Init journey failed" e)
            | .ok step =>
              (200, .jobj [("externalId", externalId), ("metadata", md),
                           ("start", st), ("step", step)])

def loadStepHandlerRun (envErr : Option String) (body : JValue)
    (tok : Except JsError String) (load : Except JsError JValue)
    (call : Nat → Except JsError JValue) (cfg : ConfigSource) : Nat × JValue :=
  match envErr with
  | some m => (500, errBody "Load step failed" (.thrown m))
  | none =>
    if ¬ (body.jget "externalId").truthy then
      (400, .jobj [("message", .jstr "externalId is required")])
    else
      match tok with
      | .error e => (500, errBody "Load step failed" e)
      | .ok _ =>
        match (loadStepAndRunCustomProcessors load call cfg).2 with
        | .error e => (500, errBody "Load step failed" e)
        | .ok step => (200, step)

def nextHandlerRun (envErr : Option String) (body : JValue)
    (tok : Except JsError String) (nextR : Except JsError JValue)
    (env : ResolveEnv) (cfg : ConfigSource) : Nat × JValue :=
  match envErr with
  | some m => (500, errBody "Next step failed" (.thrown m))
  | none =>
    let externalId := body.jget "externalId"
    if ¬ externalId.truthy then
      (400, .jobj [("message", .jstr "externalId is required")])
    else
      match tok with
      | .error e => (500, errBody "Next step failed" e)
      | .ok _ =>
        match nextR with
        | .error e => (500, errBody "Next step failed" e)
        | .ok nr =>
          let externalIdForLoad :=
            jsOr (jsOr (nr.jget "externalId") (nr.jget "instanceId")) externalId
          match (resolveWithRetry env cfg).1 with
          | .error e => (500, errBody "Next step failed" e)
          | .ok step =>
            (200, jset (jset nr "externalId" externalIdForLoad) "step" step)

def previousHandlerRun (envErr : Option String) (body : JValue)
    (tok : Except JsError String) (prevR : Except JsError JValue)
    (env : ResolveEnv) (cfg : ConfigSource) : Nat × JValue :=
  match envErr with
  | some m => (500, errBody "Previous step failed" (.thrown m))
  | none =>
    let externalId := body.jget "externalId"
    if ¬ externalId.truthy then
      (400, .jobj [("message", .jstr "externalId is required")])
    else
      match tok with
      | .error e => (500, errBody "Previous step failed" e)
      | .ok _ =>
        match prevR with
        | .error e => (500, errBody "Previous step failed" e)
        | .ok pr =>
          let externalIdForLoad :=
            jsOr (jsOr (pr.jget "externalId") (pr.jget "instanceId")) externalId
          match (resolveWithRetry env cfg).1 with
          | .error e => (500, errBody "Previous step failed" e)
          | .ok step =>
            (200, jset (jset pr "externalId" externalIdForLoad) "step" step)

def viewItemHandlerRun (envErr viewEnvErr : Option String) (body : JValue)
    (tok : Except JsError String) (fetch : Except JsError JValue) :
    Nat × JValue :=
  match envErr with
  | some m => (500, errBody "View item failed" (.thrown m))
  | none =>
    match viewEnvErr with
    | some m => (500, errBody "View item failed" (.thrown m))
    | none =>
      if ¬ (body.jget "externalId").truthy then
        (400, .jobj [("message", .jstr "externalId is required")])
      else if ¬ (body.jget "journeyStep").truthy then
        (400, .jobj [("message", .jstr "journeyStep is required")])
      else
        match tok with
        | .error e => (500, errBody "View item failed" e)
        | .ok _ =>
          match fetch with
          | .error e => (500, errBody "View item failed" e)
          | .ok vi => (200, vi)

/-- `Promise.all` over the per-offer detail fetches: with immediate
oracles, a rejection at the lowest index wins. -/
def promiseAllAux (f : Nat → Except JsError JValue) :
    Nat → Nat → Except JsError (List JValue)
  | _, 0 => .ok []
  | i, c + 1 =>
    match f i with
    | .error e => .error e
    | .ok v =>
      match promiseAllAux f (i + 1) c with
      | .error e => .error e
      | .ok vs => .ok (v :: vs)

/-- One card of the flattened offers response. -/
def mapOfferCard (offer card : JValue) : JValue :=
  .jobj [("cardId", card.jget "cardId"),
         ("cardTitle", jsOr (jsOr (card.jget "cardTitle")
                        (offer.jget "offerName")) (.jstr "Offer")),
         ("description", jsOr (card.jget "cardDescription") (.jstr "")),
         ("benefits", .jarr (((jsOr (card.jget "offerCardBenefits")
            (.jarr [])).asArr).map (fun b => b.jget "benefitName")))]

/-- One offer of the flattened offers response
(`detail = details[index] || \x7b\x7d`). -/
def mapOffer (offer detail : JValue) : JValue :=
  let d := jsOr detail (.jobj [])
  .jobj [("offerId", offer.jget "offerId"),
         ("offerName", offer.jget "offerName"),
         ("offerCode", jsOr (d.jget "offerCode") .jnull),
         ("cards", .jarr (((d.jget "offerCards").asArr).map
            (mapOfferCard offer)))]

def offersHandlerRun (pfapiEnvErr : Option String)
    (tok : Except JsError String) (available : Except JsError JValue)
    (details : Nat → Except JsError JValue) : Nat × JValue :=
  match pfapiEnvErr with
  | some m => (500, errBody "Load available offers failed" (.thrown m))
  | none =>
    match tok with
    | .error e => (500, errBody "Load available offers failed" e)
    | .ok _ =>
      match available with
      | .error e => (500, errBody "Load available offers failed" e)
      | .ok av =>
        let offersArray := av.asArr
        match promiseAllAux details 0 offersArray.length with
        | .error e => (500, errBody "Load available offers failed" e)
        | .ok ds =>
          let mapped := (offersArray.zip ds).map (fun p => mapOffer p.1 p.2)
          (200, .jobj [("offers", .jarr mapped)])

/-!
## Client-side navigation trigger (`go`, src/client/src/App.jsx
lines 1108-1185)

Modelled up to the point where the request is (or is not) issued; the
handling of the response is display state only. `stringify` abstracts
`JSON.stringify`.
-/

structure GoOptions where
  forceEmptyValues : Bool
  skipOfferValidation : Bool
  overrideValues : Option (List JValue)

/-- The default `options` object of `go`. -/
def defaultGoOptions : GoOptions :=
  { forceEmptyValues := false, skipOfferValidation := false
    overrideValues := none }

inductive GoOutcome where
  | skipped
  | rejected (message : String)
  | request (action : String) (values : List JValue)

/-- `buildValuesFromStep(step, formValues)`: one
`\x7battribute, value\x7d` pair per step field, the value from the form
state keyed by the field's name (`?? ""` turns null/undefined into the
empty string). A truthy non-array `step.fields` would crash `.map` in the
source; the claims never reach that corner. -/
def buildValuesFromStep (step : JValue)
    (formValues : List (String × JValue)) : List JValue :=
  ((step.jget "fields").asArr).map (fun f =>
    let key := jsToString (f.jget "name")
    let v :=
      match formValues.find? (fun p => p.1 = key) with
      | some p =>
        match p.2 with
        | .undefined => JValue.jstr ""
        | .jnull => JValue.jstr ""
        | w => w
      | none => JValue.jstr ""
    .jobj [("attribute", f.jget "name"), ("value", v)])

/-- `buildSelectedOffersPayload(availableOffers, selectedOfferId)`. -/
def buildSelectedOffersPayload (availableOffers : JValue)
    (selectedOfferId : String) : JValue :=
  let offers := availableOffers.asArr
  match offers.find? (fun o =>
      match o.jget "offerId" with
      | .jstr s => s = selectedOfferId
      | _ => false) with
  | none => .jarr []
  | some o =>
    .jarr [.jobj [
      ("offerId", jsOr (o.jget "offerId") (.jstr "")),
      ("productsCategory", .jarr ((o.jget "productsCategory").asArr)),
      ("offerName", jsOr (o.jget "offerName") (.jstr "")),
      ("offerProducts", .jarr ((o.jget "offerProducts").asArr))]]

/-- The decision logic of `go(action, options)`: the in-flight guard, the
offer-selection validation, and the values actually posted to
`/api/journey/action`. -/
def clientGo (inFlight : Bool) (action : String) (opts : GoOptions)
    (offerCards : List JValue) (selectedOfferId : String)
    (stepAvailableOffers : JValue) (step : JValue)
    (formValues : List (String × JValue))
    (stringify : JValue → String) : GoOutcome :=
  if inFlight then .skipped
  else
    let values :=
      if opts.forceEmptyValues then [] else buildValuesFromStep step formValues
    let isOffersSelectionStep := decide (0 < offerCards.length)
    if isOffersSelectionStep && decide (action = "next") &&
        decide (selectedOfferId = "") && !opts.skipOfferValidation then
      .rejected "Please select an offer before continuing."
    else
      let values2 :=
        if isOffersSelectionStep && decide (action = "next") &&
            !opts.forceEmptyValues then
          (values.filter (fun item =>
            match item.jget "attribute" with
            | .jstr "selectedOfferIds" => false
            | _ => true)) ++
          [.jobj [("attribute", .jstr "selectedOfferIds"),
                  ("value", .jstr (stringify
                    (buildSelectedOffersPayload stepAvailableOffers
                      selectedOfferId)))]]
        else values
      let values3 :=
        match opts.overrideValues with
        | some ov => ov
        | none => values2
      .request action values3

/-!
## Supporting lemmas for the orchestrator fold
-/

/-- "new value wins, `none` keeps the old one" — the merge of one fragment
into a singleton slot. -/
def olast {α : Type} (n o : Option α) : Option α :=
  match n with
  | some x => some x
  | none => o

theorem olast_assoc {α : Type} (x : Option α) (y z : Option α) :
    olast (olast x y) z = olast x (olast y z) := by
  cases x <;> rfl

theorem lastSome_foldl {α : Type} (l : List (Option α)) (s : Option α) :
    l.foldl ostep s = olast (lastSome l) s := by
  induction l generalizing s with
  | nil => cases s <;> rfl
  | cons a l ih =>
    have h2 : lastSome (a :: l) = olast (lastSome l) (ostep none a) := by
      rw [show lastSome (a :: l) = l.foldl ostep (ostep none a) from rfl, ih]
    rw [List.foldl_cons, ih, h2]
    cases lastSome l <;> cases a <;> rfl

theorem lastSome_cons {α : Type} (o : Option α) (l : List (Option α)) :
    lastSome (o :: l) = olast (lastSome l) o := by
  rw [show lastSome (o :: l) = l.foldl ostep (ostep none o) from rfl,
    lastSome_foldl]
  cases lastSome l <;> cases o <;> rfl

theorem foldOffers_proj (acc : Enrichment) (resp : JValue) :
    (foldOffers acc resp).availableOffers =
        acc.availableOffers ++
          (match resp.jget "availableOffers" with
           | .jarr xs => xs | _ => []) ∧
      (foldOffers acc resp).esignUrl = acc.esignUrl ∧
      (foldOffers acc resp).personaResponse = acc.personaResponse ∧
      (foldOffers acc resp).stripePaymentDetails =
        acc.stripePaymentDetails := by
  unfold foldOffers
  cases resp.jget "availableOffers" <;> simp

theorem foldEsign_proj (acc : Enrichment) (resp : JValue) :
    (foldEsign acc resp).availableOffers = acc.availableOffers ∧
      (foldEsign acc resp).esignUrl =
        olast (match resp.jget "esignUrl" with
               | .jstr s => if s.trim ≠ "" then some s else none
               | _ => none) acc.esignUrl ∧
      (foldEsign acc resp).personaResponse = acc.personaResponse ∧
      (foldEsign acc resp).stripePaymentDetails =
        acc.stripePaymentDetails := by
  unfold foldEsign
  cases h : resp.jget "esignUrl" <;> simp [olast]
  split <;> simp [olast]

theorem foldPersona_proj (acc : Enrichment) (resp : JValue) :
    (foldPersona acc resp).availableOffers = acc.availableOffers ∧
      (foldPersona acc resp).esignUrl = acc.esignUrl ∧
      (foldPersona acc resp).personaResponse =
        olast (match resp.jget "personaResponse" with
               | .jobj fs => some (JValue.jobj fs)
               | _ => none) acc.personaResponse ∧
      (foldPersona acc resp).stripePaymentDetails =
        acc.stripePaymentDetails := by
  unfold foldPersona
  cases resp.jget "personaResponse" <;> simp [olast]

theorem foldStripe_proj (acc : Enrichment) (resp : JValue) :
    (foldStripe acc resp).availableOffers = acc.availableOffers ∧
      (foldStripe acc resp).esignUrl = acc.esignUrl ∧
      (foldStripe acc resp).personaResponse = acc.personaResponse ∧
      (foldStripe acc resp).stripePaymentDetails =
        olast (match resp.jget "stripePaymentDetails" with
               | .jobj fs => some (JValue.jobj fs)
               | _ => none) acc.stripePaymentDetails := by
  unfold foldStripe
  cases resp.jget "stripePaymentDetails" <;> simp [olast]

theorem foldAction_proj (acc : Enrichment) (r : JValue) :
    (foldAction acc r).availableOffers =
        acc.availableOffers ++ offersFrag r ∧
      (foldAction acc r).esignUrl = olast (esignFrag r) acc.esignUrl ∧
      (foldAction acc r).personaResponse =
        olast (personaFrag r) acc.personaResponse ∧
      (foldAction acc r).stripePaymentDetails =
        olast (stripeFrag r) acc.stripePaymentDetails := by
  unfold foldAction offersFrag esignFrag personaFrag stripeFrag
  refine ⟨?_, ?_, ?_, ?_⟩
  · rw [(foldStripe_proj _ _).1, (foldPersona_proj _ _).1,
      (foldEsign_proj _ _).1, (foldOffers_proj _ _).1]
  · rw [(foldStripe_proj _ _).2.1, (foldPersona_proj _ _).2.1,
      (foldEsign_proj _ _).2.1, (foldOffers_proj _ _).2.1]
  · rw [(foldStripe_proj _ _).2.2.1, (foldPersona_proj _ _).2.2.1,
      (foldEsign_proj _ _).2.2.1, (foldOffers_proj _ _).2.2.1]
  · rw [(foldStripe_proj _ _).2.2.2, (foldPersona_proj _ _).2.2.2,
      (foldEsign_proj _ _).2.2.2, (foldOffers_proj _ _).2.2.2]

theorem foldl_foldAction_avail (rs : List JValue) (acc : Enrichment) :
    (rs.foldl foldAction acc).availableOffers =
      acc.availableOffers ++ (rs.map offersFrag).flatten := by
  induction rs generalizing acc with
  | nil => simp
  | cons r rs ih =>
    simp only [List.foldl_cons, List.map_cons, List.flatten_cons, ih,
      (foldAction_proj acc r).1, List.append_assoc]

theorem foldl_foldAction_esign (rs : List JValue) (acc : Enrichment) :
    (rs.foldl foldAction acc).esignUrl =
      olast (lastSome (rs.map esignFrag)) acc.esignUrl := by
  induction rs generalizing acc with
  | nil => rfl
  | cons r rs ih =>
    simp only [List.foldl_cons, List.map_cons, ih,
      (foldAction_proj acc r).2.1, lastSome_cons, olast_assoc]

theorem foldl_foldAction_persona (rs : List JValue) (acc : Enrichment) :
    (rs.foldl foldAction acc).personaResponse =
      olast (lastSome (rs.map personaFrag)) acc.personaResponse := by
  induction rs generalizing acc with
  | nil => rfl
  | cons r rs ih =>
    simp only [List.foldl_cons, List.map_cons, ih,
      (foldAction_proj acc r).2.2.1, lastSome_cons, olast_assoc]

theorem foldl_foldAction_stripe (rs : List JValue) (acc : Enrichment) :
    (rs.foldl foldAction acc).stripePaymentDetails =
      olast (lastSome (rs.map stripeFrag)) acc.stripePaymentDetails := by
  induction rs generalizing acc with
  | nil => rfl
  | cons r rs ih =>
    simp only [List.foldl_cons, List.map_cons, ih,
      (foldAction_proj acc r).2.2.2, lastSome_cons, olast_assoc]

theorem runActionsLoop_allOk (f : Nat → JValue) :
    ∀ (todo : Nat) (i : Nat) (acc : Enrichment),
      runActionsLoop (fun j => .ok (f j)) acc i todo
        = (i + todo, .ok (((List.range' i todo).map f).foldl foldAction acc))
  | 0, i, acc => by simp [runActionsLoop]
  | todo + 1, i, acc => by
    rw [runActionsLoop]
    dsimp only
    rw [runActionsLoop_allOk f todo (i + 1) (foldAction acc (f i))]
    simp only [List.range'_succ, List.map_cons, List.foldl_cons]
    rw [show i + 1 + todo = i + (todo + 1) from by omega]

theorem runActions_ok_inv (f : Nat → JValue) (step : JValue)
    (n : Nat) (enr : Enrichment)
    (h : runCallCustomProcessorActions (fun i => .ok (f i)) step
      = (n, .ok enr)) :
    enr = ((List.range n).map f).foldl foldAction emptyEnrichment := by
  unfold runCallCustomProcessorActions at h
  by_cases hq : (qualActions step).length = 0
  · rw [if_pos hq] at h
    have hn : n = 0 := (Prod.mk.injEq _ _ _ _ ▸ h).1.symm
    have he : Except.ok (ε := JsError) emptyEnrichment = .ok enr :=
      (Prod.mk.injEq _ _ _ _ ▸ h).2
    subst hn
    simp only [List.range_zero, List.map_nil, List.foldl_nil]
    exact (Except.ok.injEq _ _ ▸ he).symm
  · rw [if_neg hq] at h
    by_cases ht : (jsOr (step.jget "externalId") (step.jget "instanceId")).truthy
    · rw [if_neg (by simp [ht])] at h
      rw [runActionsLoop_allOk] at h
      have hn : 0 + (qualActions step).length = n :=
        (Prod.mk.injEq _ _ _ _ ▸ h).1
      have he : Except.ok (ε := JsError)
          (((List.range' 0 (qualActions step).length).map f).foldl
            foldAction emptyEnrichment) = .ok enr :=
        (Prod.mk.injEq _ _ _ _ ▸ h).2
      have he' := Except.ok.injEq _ _ ▸ he
      rw [← he', List.range_eq_range']
      rw [show n = (qualActions step).length from by omega]
    · rw [if_pos (by simp [ht])] at h
      exact absurd ((Prod.mk.injEq _ _ _ _ ▸ h).2) (by simp)

/-- C1: for every step whose qualifying custom-processor actions all
succeed, the enrichment returned by `runCallCustomProcessorActions` folds
the per-action responses in declaration order: offers arrays concatenate
(so N actions with 2 offers each give 2N offers), while `esignUrl`,
`personaResponse` and `stripePaymentDetails` each take the last well-formed
fragment — a later `null`/malformed fragment (a `none`) never overwrites an
earlier well-formed one, as the trailing `lastSome` laws state. -/
theorem c1_runActions_merge_rules (f : Nat → JValue) (step : JValue)
    (n : Nat) (enr : Enrichment)
    (h : runCallCustomProcessorActions (fun i => .ok (f i)) step
      = (n, .ok enr)) :
    enr.availableOffers = (((List.range n).map f).map offersFrag).flatten ∧
    enr.esignUrl = lastSome (((List.range n).map f).map esignFrag) ∧
    enr.personaResponse =
      lastSome (((List.range n).map f).map personaFrag) ∧
    enr.stripePaymentDetails =
      lastSome (((List.range n).map f).map stripeFrag) ∧
    ((∀ r ∈ (List.range n).map f, (offersFrag r).length = 2) →
      enr.availableOffers.length = 2 * n) ∧
    (∀ (l : List (Option JValue)) (x : JValue),
      lastSome (l ++ [some x]) = some x) ∧
    (∀ (l : List (Option JValue)), lastSome (l ++ [none]) = lastSome l) := by
  have he := runActions_ok_inv f step n enr h
  subst he
  refine ⟨?_, ?_, ?_, ?_, ?_, ?_, ?_⟩
  · rw [foldl_foldAction_avail]; rfl
  · rw [foldl_foldAction_esign]; cases lastSome (((List.range n).map f).map esignFrag) <;> rfl
  · rw [foldl_foldAction_persona]; cases lastSome (((List.range n).map f).map personaFrag) <;> rfl
  · rw [foldl_foldAction_stripe]; cases lastSome (((List.range n).map f).map stripeFrag) <;> rfl
  · intro hall
    rw [foldl_foldAction_avail]
    have key : ∀ (rs : List JValue), (∀ r ∈ rs, (offersFrag r).length = 2) →
        ((rs.map offersFrag).flatten).length = 2 * rs.length := by
      intro rs
      induction rs with
      | nil => intro; simp
      | cons r rs ih =>
        intro hall
        simp only [List.map_cons, List.flatten_cons, List.length_append,
          List.length_cons]
        rw [hall r (by simp), ih (fun r hr => hall r (by simp [hr]))]
        ring
    have := key ((List.range n).map f) hall
    simpa [emptyEnrichment] using this
  · intro l x
    rw [show lastSome (l ++ [some x])
        = (l ++ [some x]).foldl ostep none from rfl, List.foldl_append]
    rfl
  · intro l
    rw [show lastSome (l ++ [(none : Option JValue)])
        = (l ++ [none]).foldl ostep none from rfl, List.foldl_append]
    rfl

def c1ExResp0 : JValue :=
  .jobj [("actionResponse", .jobj
    [("availableOffers", .jarr [.jstr "o1", .jstr "o2"]),
     ("personaResponse", JValue.jnull)])]

def c1ExResp1 : JValue :=
  .jobj [("actionResponse", .jobj
    [("availableOffers", .jarr [.jstr "o3", .jstr "o4"]),
     ("personaResponse", .jobj [("id", .jstr "p1")])])]

def c1ExF : Nat → JValue
  | 0 => c1ExResp0
  | 1 => c1ExResp1
  | _ => .undefined

def c1ExStep : JValue :=
  .jobj [("externalId", .jstr "X"),
         ("stepActions", .jarr
           [.jobj [("type", .jstr "callCustomProcessor"), ("id", .jstr "a1")],
            .jobj [("type", .jstr "callCustomProcessor"), ("id", .jstr "a2")]])]

def c1ExEnr : Enrichment :=
  { availableOffers := [.jstr "o1", .jstr "o2", .jstr "o3", .jstr "o4"]
    esignUrl := none
    personaResponse := some (.jobj [("id", .jstr "p1")])
    stripePaymentDetails := none }

theorem c1_runActions_merge_rules_witness :
    c1ExEnr.availableOffers =
      (((List.range 2).map c1ExF).map offersFrag).flatten ∧
    c1ExEnr.personaResponse =
      lastSome (((List.range 2).map c1ExF).map personaFrag) ∧
    c1ExEnr.availableOffers.length = 2 * 2 := by
  have h := c1_runActions_merge_rules c1ExF c1ExStep 2 c1ExEnr rfl
  exact ⟨h.1, h.2.2.1, h.2.2.2.2.1 (by decide)⟩

/-- C6: a step with at least one qualifying action but neither a truthy
`externalId` nor a truthy `instanceId` makes `runCallCustomProcessorActions`
throw the hard local error with zero action invocations; a step with zero
qualifying actions returns the all-empty enrichment with zero invocations
and no error, whatever the identifiers. -/
theorem c6_runActions_identifier_guard (call : Nat → Except JsError JValue)
    (step : JValue) :
    ((qualActions step).length = 0 →
      runCallCustomProcessorActions call step = (0, .ok emptyEnrichment)) ∧
    (0 < (qualActions step).length →
      (jsOr (step.jget "externalId") (step.jget "instanceId")).truthy
        = false →
      runCallCustomProcessorActions call step
        = (0, .error (.thrown
          "Cannot call custom processors: missing externalId/instanceId in step payload"))) := by
  constructor
  · intro h
    unfold runCallCustomProcessorActions
    rw [if_pos h]
  · intro h ht
    unfold runCallCustomProcessorActions
    rw [if_neg (by omega), if_pos (by simp [ht])]

def c6ExStepNoId : JValue :=
  .jobj [("stepActions", .jarr
    [.jobj [("type", .jstr "callCustomProcessor"), ("id", .jstr "a1")]])]

def c6ExStepNoActions : JValue :=
  .jobj [("externalId", JValue.jnull),
         ("stepActions", .jarr [.jobj [("type", .jstr "somethingElse")]])]

theorem c6_runActions_identifier_guard_witness :
    runCallCustomProcessorActions (fun _ => .ok .undefined) c6ExStepNoId
      = (0, .error (.thrown
        "Cannot call custom processors: missing externalId/instanceId in step payload")) ∧
    runCallCustomProcessorActions (fun _ => .ok .undefined) c6ExStepNoActions
      = (0, .ok emptyEnrichment) :=
  ⟨(c6_runActions_identifier_guard (fun _ => .ok .undefined) c6ExStepNoId).2
      (by decide) rfl,
    (c6_runActions_identifier_guard (fun _ => .ok .undefined)
      c6ExStepNoActions).1 (by decide)⟩

theorem any_setAssoc_preserve (fields : List (String × JValue)) (k k' : String)
    (w : JValue) (h : fields.any (fun p => p.1 = k) = true) :
    (setAssoc fields k' w).any (fun p => p.1 = k) = true := by
  unfold setAssoc
  split
  · rw [List.any_map]
    rw [show ((fun p : String × JValue => decide (p.1 = k)) ∘
        fun p : String × JValue => if p.1 = k' then (p.1, w) else p)
        = fun p : String × JValue => decide (p.1 = k) from ?_]
    · exact h
    · funext p
      by_cases hp : p.1 = k' <;> simp [hp]
  · rw [List.any_append]
    simp [h]

theorem hasKey_jset_self (v : JValue) (k : String) (w : JValue) :
    (jset v k w).hasKey k = true := by
  cases v with
  | jobj fields =>
    show (setAssoc fields k w).any (fun p => p.1 = k) = true
    unfold setAssoc
    split
    next hany =>
      rw [List.any_map]
      rw [show ((fun p : String × JValue => decide (p.1 = k)) ∘
          fun p : String × JValue => if p.1 = k then (p.1, w) else p)
          = fun p : String × JValue => decide (p.1 = k) from ?_]
      · exact hany
      · funext p
        by_cases hp : p.1 = k <;> simp [hp]
    next => simp
  | undefined => simp [jset, hasKey]
  | jnull => simp [jset, hasKey]
  | jbool b => simp [jset, hasKey]
  | jnum n => simp [jset, hasKey]
  | jstr s => simp [jset, hasKey]
  | jarr xs => simp [jset, hasKey]

theorem hasKey_jset_preserve (v : JValue) (k k' : String) (w : JValue)
    (h : v.hasKey k = true) : (jset v k' w).hasKey k = true := by
  cases v with
  | jobj fields => exact any_setAssoc_preserve fields k k' w h
  | undefined => simp [hasKey] at h
  | jnull => simp [hasKey] at h
  | jbool b => simp [hasKey] at h
  | jnum n => simp [hasKey] at h
  | jstr s => simp [hasKey] at h
  | jarr xs => simp [hasKey] at h

/-- C5: whenever `loadStepAndRunCustomProcessors` succeeds, the resolved
step object carries all four enrichment keys — `availableOffers`,
`esignUrl`, `personaResponse`, `stripePaymentDetails` — regardless of the
raw payload and of whether it declared any step actions. -/
theorem c5_enrichment_bag_present (load : Except JsError JValue)
    (call : Nat → Except JsError JValue) (cfg : ConfigSource)
    (n : Nat) (out : JValue)
    (h : loadStepAndRunCustomProcessors load call cfg = (n, .ok out)) :
    out.hasKey "availableOffers" = true ∧ out.hasKey "esignUrl" = true ∧
    out.hasKey "personaResponse" = true ∧
    out.hasKey "stripePaymentDetails" = true := by
  unfold loadStepAndRunCustomProcessors at h
  cases load with
  | error e => exact absurd ((Prod.mk.injEq _ _ _ _ ▸ h).2) (by simp)
  | ok step =>
    dsimp only at h
    revert h
    cases hr : runCallCustomProcessorActions call
        (applyStepOverrides cfg step) with
    | mk m res =>
      cases res with
      | error e =>
        intro h
        exact absurd ((Prod.mk.injEq _ _ _ _ ▸ h).2) (by simp)
      | ok enr =>
        intro h
        have hout : mergeStepEnrichment (applyStepOverrides cfg step) enr
            = out := Except.ok.injEq _ _ ▸ (Prod.mk.injEq _ _ _ _ ▸ h).2
        subst hout
        unfold mergeStepEnrichment
        refine ⟨?_, ?_, ?_, ?_⟩
        · exact hasKey_jset_preserve _ _ _ _ (hasKey_jset_preserve _ _ _ _
            (hasKey_jset_preserve _ _ _ _ (hasKey_jset_self _ _ _)))
        · exact hasKey_jset_preserve _ _ _ _ (hasKey_jset_preserve _ _ _ _
            (hasKey_jset_self _ _ _))
        · exact hasKey_jset_preserve _ _ _ _ (hasKey_jset_self _ _ _)
        · exact hasKey_jset_self _ _ _

def c5ExOut : JValue :=
  .jobj [("availableOffers", .jarr []), ("esignUrl", JValue.jnull),
         ("personaResponse", JValue.jnull),
         ("stripePaymentDetails", JValue.jnull)]

theorem c5_enrichment_bag_present_witness :
    (JValue.hasKey c5ExOut "availableOffers" = true ∧
      JValue.hasKey c5ExOut "esignUrl" = true ∧
      JValue.hasKey c5ExOut "personaResponse" = true ∧
      JValue.hasKey c5ExOut "stripePaymentDetails" = true) :=
  c5_enrichment_bag_present (.ok (.jobj [])) (fun _ => .ok .undefined)
    .missing 0 c5ExOut rfl

theorem retryGo_ok (resolve : Nat → Nat × Except JsError JValue)
    (delay attempt r : Nat) (le : JsError) (n : Nat) (v : JValue)
    (h : resolve attempt = (n, .ok v)) :
    retryGo resolve delay attempt (r + 1) le = (.ok v, [n], 0) := by
  rw [retryGo, h]

theorem retryGo_err_stop (resolve : Nat → Nat × Except JsError JValue)
    (delay attempt r : Nat) (le : JsError) (n : Nat) (e : JsError)
    (h : resolve attempt = (n, .error e)) (hc : canRetry e = false) :
    retryGo resolve delay attempt (r + 1) le = (.error e, [n], 0) := by
  rw [retryGo, h]
  dsimp only
  rw [if_neg (by simp [hc])]

theorem retryGo_err_last (resolve : Nat → Nat × Except JsError JValue)
    (delay attempt : Nat) (le : JsError) (n : Nat) (e : JsError)
    (h : resolve attempt = (n, .error e)) :
    retryGo resolve delay attempt 1 le = (.error e, [n], 0) := by
  rw [show (1 : Nat) = 0 + 1 from rfl, retryGo, h]
  dsimp only
  rw [if_neg (by simp)]

theorem retryGo_err_cont (resolve : Nat → Nat × Except JsError JValue)
    (delay attempt r : Nat) (le : JsError) (n : Nat) (e : JsError)
    (h : resolve attempt = (n, .error e)) (hc : canRetry e = true)
    (hr : r ≠ 0) :
    retryGo resolve delay attempt (r + 1) le =
      ((retryGo resolve delay (attempt + 1) r e).1,
        n :: (retryGo resolve delay (attempt + 1) r e).2.1,
        delay + (retryGo resolve delay (attempt + 1) r e).2.2) := by
  rw [retryGo, h]
  dsimp only
  rw [if_pos ⟨hc, hr⟩]

/-- C2: the post-navigation resolver `loadStepWithRetry` retries only an
upstream 404 whose body carries a truthy `message`, with a fixed 250ms
sleep between attempts and at most 4 attempts; any other error (a 500, a
404 without a message, a local throw) propagates from the first attempt
with no sleep, and after 4 retryable failures the 4th error propagates
after 3 sleeps. The `load-step` handler (like `init`) performs a single
resolution pass: a retryable failure there is surfaced immediately. -/
theorem c2_retry_policy (resolve : Nat → Nat × Except JsError JValue) :
    (∀ (s : Int) (data : JValue) (m : String),
      canRetry (.http s data m)
        = (decide (s = 404) && (data.jget "message").truthy)) ∧
    (∀ m, canRetry (.thrown m) = false) ∧
    (∀ (n : Nat) (e : JsError), resolve 1 = (n, .error e) →
      canRetry e = false →
      loadStepWithRetry resolve 4 250 = (.error e, [n], 0)) ∧
    (∀ k, k < 4 →
      (∀ i, 1 ≤ i → i ≤ k →
        ∃ n e, resolve i = (n, .error e) ∧ canRetry e = true) →
      ∀ (m : Nat) (v : JValue), resolve (k + 1) = (m, .ok v) →
        (loadStepWithRetry resolve 4 250).1 = .ok v ∧
        (loadStepWithRetry resolve 4 250).2.1.length = k + 1 ∧
        (loadStepWithRetry resolve 4 250).2.2 = 250 * k) ∧
    (∀ (n : Nat) (e : JsError),
      (∀ i, 1 ≤ i → i ≤ 4 →
        ∃ n' e', resolve i = (n', .error e') ∧ canRetry e' = true) →
      resolve 4 = (n, .error e) →
      (loadStepWithRetry resolve 4 250).1 = .error e ∧
      (loadStepWithRetry resolve 4 250).2.1.length = 4 ∧
      (loadStepWithRetry resolve 4 250).2.2 = 250 * 3) ∧
    (∀ (body : JValue) (t : String) (load : Except JsError JValue)
        (call : Nat → Except JsError JValue) (cfg : ConfigSource)
        (n : Nat) (e : JsError),
      (body.jget "externalId").truthy = true →
      loadStepAndRunCustomProcessors load call cfg = (n, .error e) →
      loadStepHandlerRun none body (.ok t) load call cfg
        = (500, errBody "Load step failed" e)) := by
  refine ⟨fun s data m => rfl, fun m => rfl, ?_, ?_, ?_, ?_⟩
  · intro n e h1 hc
    exact retryGo_err_stop resolve 250 1 3 (.thrown "null") n e h1 hc
  · intro k hk hfail m v hok
    interval_cases k
    · have h := retryGo_ok resolve 250 1 3 (.thrown "null") m v hok
      rw [show loadStepWithRetry resolve 4 250
          = retryGo resolve 250 1 4 (.thrown "null") from rfl, h]
      exact ⟨rfl, rfl, rfl⟩
    · obtain ⟨n1, e1, h1, hc1⟩ := hfail 1 (by omega) (by omega)
      have s1 := retryGo_err_cont resolve 250 1 3 (.thrown "null") n1 e1 h1
        hc1 (by omega)
      have s2 := retryGo_ok resolve 250 2 2 e1 m v hok
      rw [show loadStepWithRetry resolve 4 250
          = retryGo resolve 250 1 4 (.thrown "null") from rfl, s1, s2]
      exact ⟨rfl, rfl, rfl⟩
    · obtain ⟨n1, e1, h1, hc1⟩ := hfail 1 (by omega) (by omega)
      obtain ⟨n2, e2, h2, hc2⟩ := hfail 2 (by omega) (by omega)
      have s1 := retryGo_err_cont resolve 250 1 3 (.thrown "null") n1 e1 h1
        hc1 (by omega)
      have s2 := retryGo_err_cont resolve 250 2 2 e1 n2 e2 h2 hc2 (by omega)
      have s3 := retryGo_ok resolve 250 3 1 e2 m v hok
      rw [show loadStepWithRetry resolve 4 250
          = retryGo resolve 250 1 4 (.thrown "null") from rfl, s1, s2, s3]
      exact ⟨rfl, rfl, rfl⟩
    · obtain ⟨n1, e1, h1, hc1⟩ := hfail 1 (by omega) (by omega)
      obtain ⟨n2, e2, h2, hc2⟩ := hfail 2 (by omega) (by omega)
      obtain ⟨n3, e3, h3, hc3⟩ := hfail 3 (by omega) (by omega)
      have s1 := retryGo_err_cont resolve 250 1 3 (.thrown "null") n1 e1 h1
        hc1 (by omega)
      have s2 := retryGo_err_cont resolve 250 2 2 e1 n2 e2 h2 hc2 (by omega)
      have s3 := retryGo_err_cont resolve 250 3 1 e2 n3 e3 h3 hc3 (by omega)
      have s4 := retryGo_ok resolve 250 4 0 e3 m v hok
      rw [show loadStepWithRetry resolve 4 250
          = retryGo resolve 250 1 4 (.thrown "null") from rfl, s1, s2, s3, s4]
      exact ⟨rfl, rfl, rfl⟩
  · intro n e hfail h4
    obtain ⟨n1, e1, h1, hc1⟩ := hfail 1 (by omega) (by omega)
    obtain ⟨n2, e2, h2, hc2⟩ := hfail 2 (by omega) (by omega)
    obtain ⟨n3, e3, h3, hc3⟩ := hfail 3 (by omega) (by omega)
    have s1 := retryGo_err_cont resolve 250 1 3 (.thrown "null") n1 e1 h1
      hc1 (by omega)
    have s2 := retryGo_err_cont resolve 250 2 2 e1 n2 e2 h2 hc2 (by omega)
    have s3 := retryGo_err_cont resolve 250 3 1 e2 n3 e3 h3 hc3 (by omega)
    have s4 := retryGo_err_last resolve 250 4 e3 n e h4
    rw [show loadStepWithRetry resolve 4 250
        = retryGo resolve 250 1 4 (.thrown "null") from rfl, s1, s2, s3, s4]
    exact ⟨rfl, rfl, rfl⟩
  · intro body t load call cfg n e hb hres
    unfold loadStepHandlerRun
    rw [if_neg (by simp [hb])]
    dsimp only
    rw [hres]

def c2Ex404 : JsError :=
  .http 404 (.jobj [("message", .jstr "Instance not found")])
    "Request failed with status code 404"

def c2Ex500 : JsError :=
  .http 500 (.jobj [("message", .jstr "boom")])
    "Request failed with status code 500"

def c2ExRetryResolve : Nat → Nat × Except JsError JValue
  | 1 => (0, .error c2Ex404)
  | 2 => (0, .error c2Ex404)
  | _ => (0, .ok (.jobj [("journeyStep", .jstr "S")]))

def c2Ex500Resolve : Nat → Nat × Except JsError JValue
  | _ => (1, .error c2Ex500)

theorem c2_retry_policy_witness :
    ((loadStepWithRetry c2ExRetryResolve 4 250).1
        = .ok (.jobj [("journeyStep", .jstr "S")]) ∧
      (loadStepWithRetry c2ExRetryResolve 4 250).2.1.length = 2 + 1 ∧
      (loadStepWithRetry c2ExRetryResolve 4 250).2.2 = 250 * 2) ∧
    loadStepWithRetry c2Ex500Resolve 4 250 = (.error c2Ex500, [1], 0) := by
  constructor
  · refine (c2_retry_policy c2ExRetryResolve).2.2.2.1 2 (by omega) ?_ 0
      (.jobj [("journeyStep", .jstr "S")]) rfl
    intro i h1 h2
    interval_cases i
    · exact ⟨0, c2Ex404, rfl, rfl⟩
    · exact ⟨0, c2Ex404, rfl, rfl⟩
  · exact (c2_retry_policy c2Ex500Resolve).2.2.1 1 c2Ex500 rfl rfl

theorem retryGo_trace_length (resolve : Nat → Nat × Except JsError JValue)
    (delay : Nat) : ∀ (r attempt : Nat) (le : JsError),
    (retryGo resolve delay attempt r le).2.1.length ≤ r
  | 0, attempt, le => by simp [retryGo]
  | r + 1, attempt, le => by
    rcases h : resolve attempt with ⟨n, res⟩
    cases res with
    | ok v =>
      rw [retryGo_ok resolve delay attempt r le n v h]
      simp
    | error e =>
      by_cases hc : canRetry e = true ∧ r ≠ 0
      · rw [retryGo_err_cont resolve delay attempt r le n e h hc.1 hc.2]
        have := retryGo_trace_length resolve delay r (attempt + 1) e
        simp only [List.length_cons]
        omega
      · by_cases hct : canRetry e = true
        · have hr0 : r = 0 := by
            by_contra hr
            exact hc ⟨hct, hr⟩
          subst hr0
          rw [retryGo_err_last resolve delay attempt le n e h]
          simp
        · have hcf : canRetry e = false := by simpa using hct
          rw [retryGo_err_stop resolve delay attempt r le n e h hcf]
          simp

theorem retryGo_trace_get (resolve : Nat → Nat × Except JsError JValue)
    (delay : Nat) : ∀ (r attempt : Nat) (le : JsError) (j : Nat)
    (hj : j < (retryGo resolve delay attempt r le).2.1.length),
    (retryGo resolve delay attempt r le).2.1.get ⟨j, hj⟩
      = (resolve (attempt + j)).1
  | 0, attempt, le => by simp [retryGo]
  | r + 1, attempt, le => by
    rcases h : resolve attempt with ⟨n, res⟩
    cases res with
    | ok v =>
      rw [retryGo_ok resolve delay attempt r le n v h]
      intro j hj
      have hj0 : j = 0 := by simpa using hj
      subst hj0
      simp [h]
    | error e =>
      by_cases hc : canRetry e = true ∧ r ≠ 0
      · rw [retryGo_err_cont resolve delay attempt r le n e h hc.1 hc.2]
        intro j hj
        cases j with
        | zero => simp [h]
        | succ j =>
          have hj' : j < (retryGo resolve delay (attempt + 1) r e).2.1.length := by
            simpa using hj
          have := retryGo_trace_get resolve delay r (attempt + 1) e j hj'
          simp only [List.get_cons_succ]
          rw [this, show attempt + 1 + j = attempt + (j + 1) from by omega]
      · by_cases hct : canRetry e = true
        · have hr0 : r = 0 := by
            by_contra hr
            exact hc ⟨hct, hr⟩
          subst hr0
          rw [retryGo_err_last resolve delay attempt le n e h]
          intro j hj
          have hj0 : j = 0 := by simpa using hj
          subst hj0
          simp [h]
        · have hcf : canRetry e = false := by simpa using hct
          rw [retryGo_err_stop resolve delay attempt r le n e h hcf]
          intro j hj
          have hj0 : j = 0 := by simpa using hj
          subst hj0
          simp [h]

theorem retryGo_trace_pos (resolve : Nat → Nat × Except JsError JValue)
    (delay r attempt : Nat) (le : JsError) (hr : 1 ≤ r) :
    1 ≤ (retryGo resolve delay attempt r le).2.1.length := by
  cases r with
  | zero => omega
  | succ r =>
    rcases h : resolve attempt with ⟨n, res⟩
    cases res with
    | ok v =>
      rw [retryGo_ok resolve delay attempt r le n v h]
      simp
    | error e =>
      by_cases hc : canRetry e = true ∧ r ≠ 0
      · rw [retryGo_err_cont resolve delay attempt r le n e h hc.1 hc.2]
        simp
      · by_cases hct : canRetry e = true
        · have hr0 : r = 0 := by
            by_contra hrr
            exact hc ⟨hct, hrr⟩
          subst hr0
          rw [retryGo_err_last resolve delay attempt le n e h]
          simp
        · have hcf : canRetry e = false := by simpa using hct
          rw [retryGo_err_stop resolve delay attempt r le n e h hcf]
          simp

theorem runActionsLoop_calls_le (call : Nat → Except JsError JValue) :
    ∀ (todo : Nat) (acc : Enrichment) (i : Nat),
    (runActionsLoop call acc i todo).1 ≤ i + todo
  | 0, acc, i => by simp [runActionsLoop]
  | todo + 1, acc, i => by
    rw [runActionsLoop]
    cases call i with
    | error e => dsimp only; omega
    | ok r =>
      dsimp only
      have := runActionsLoop_calls_le call todo (foldAction acc r) (i + 1)
      omega

theorem runActions_calls_le (call : Nat → Except JsError JValue)
    (step : JValue) :
    (runCallCustomProcessorActions call step).1 ≤ (qualActions step).length := by
  unfold runCallCustomProcessorActions
  dsimp only
  by_cases hq : (qualActions step).length = 0
  · rw [if_pos hq]
    simp
  · rw [if_neg hq]
    by_cases ht : (jsOr (step.jget "externalId") (step.jget "instanceId")).truthy
    · rw [if_neg (by simp [ht])]
      have := runActionsLoop_calls_le call (qualActions step).length
        emptyEnrichment 0
      omega
    · rw [if_pos (by simp [ht])]
      simp

theorem loadStep_calls_eq (load : Except JsError JValue)
    (call : Nat → Except JsError JValue) (cfg : ConfigSource) :
    (loadStepAndRunCustomProcessors load call cfg).1 =
      (match load with
       | .error _ => 0
       | .ok step =>
         (runCallCustomProcessorActions call
           (applyStepOverrides cfg step)).1) := by
  unfold loadStepAndRunCustomProcessors
  cases load with
  | error e => rfl
  | ok step =>
    dsimp only
    rcases h : runCallCustomProcessorActions call
        (applyStepOverrides cfg step) with ⟨n, res⟩
    cases res <;> rfl

/-- C9 (implicit): the retrying resolver re-runs the whole resolution —
step load, override merge and all qualifying action invocations — on every
attempt: each executed attempt's action-invocation count is that of a
fresh `resolveStepOnce` pass at that attempt; each pass invokes each
action at most once (count bounded by the qualifying-action count); a
retryable failure on the first pass — wherever it arose, including inside
an action call — forces at least a second full pass; and a fixed action is
invoked at most 4 times over one next/previous request. -/
theorem c9_retry_reexecutes_resolution (env : ResolveEnv)
    (cfg : ConfigSource) :
    (resolveWithRetry env cfg).2.1.length ≤ 4 ∧
    (∀ (j : Nat) (hj : j < (resolveWithRetry env cfg).2.1.length),
      (resolveWithRetry env cfg).2.1.get ⟨j, hj⟩
        = (resolveStepOnce env cfg (1 + j)).1) ∧
    (∀ a, (resolveStepOnce env cfg a).1 ≤ attemptQualCount env cfg a) ∧
    (∀ (n : Nat) (e : JsError), resolveStepOnce env cfg 1 = (n, .error e) →
      canRetry e = true → 2 ≤ (resolveWithRetry env cfg).2.1.length) ∧
    (∀ i, ((resolveWithRetry env cfg).2.1.filter
      (fun c => decide (i < c))).length ≤ 4) := by
  refine ⟨?_, ?_, ?_, ?_, ?_⟩
  · exact retryGo_trace_length (resolveStepOnce env cfg) 250 4 1
      (.thrown "null")
  · exact fun j hj => retryGo_trace_get (resolveStepOnce env cfg) 250 4 1
      (.thrown "null") j hj
  · intro a
    unfold attemptQualCount resolveStepOnce
    rw [loadStep_calls_eq]
    cases env.loadStep a with
    | error e => simp
    | ok step => exact runActions_calls_le (env.action a) _
  · intro n e h hc
    have step1 := retryGo_err_cont (resolveStepOnce env cfg) 250 1 3
      (.thrown "null") n e h hc (by omega)
    have hpos := retryGo_trace_pos (resolveStepOnce env cfg) 250 3 (1 + 1) e
      (by omega)
    rw [show resolveWithRetry env cfg
        = retryGo (resolveStepOnce env cfg) 250 1 4 (.thrown "null") from rfl,
      step1]
    simp only [List.length_cons]
    omega
  · intro i
    have h1 : ((resolveWithRetry env cfg).2.1.filter
        (fun c => decide (i < c))).length
        ≤ (resolveWithRetry env cfg).2.1.length :=
      List.length_filter_le _ _
    have h2 := retryGo_trace_length (resolveStepOnce env cfg) 250 4 1
      (.thrown "null")
    exact le_trans h1 h2

def c9Ex404 : JsError :=
  .http 404 (.jobj [("message", .jstr "Instance not found")])
    "Request failed with status code 404"

def c9ExStep : JValue :=
  .jobj [("externalId", .jstr "X"),
         ("stepActions", .jarr
           [.jobj [("type", .jstr "callCustomProcessor"), ("id", .jstr "a")]])]

def c9ExEnv : ResolveEnv :=
  { loadStep := fun _ => .ok c9ExStep
    action := fun attempt _ =>
      if attempt = 1 then .error c9Ex404 else .ok (.jobj []) }

theorem c9_retry_reexecutes_resolution_witness :
    2 ≤ (resolveWithRetry c9ExEnv .missing).2.1.length ∧
    (resolveStepOnce c9ExEnv .missing 2).1
      ≤ attemptQualCount c9ExEnv .missing 2 :=
  ⟨(c9_retry_reexecutes_resolution c9ExEnv .missing).2.2.2.1 1 c9Ex404
      rfl rfl,
    (c9_retry_reexecutes_resolution c9ExEnv .missing).2.2.1 2⟩

/-- The response shapes a journey handler can produce: success, the
500 catch-all with a `message` and `details` body, or the 400
request-validation rejection with a `message`-only body. -/
def handlerErrShape (r : Nat × JValue) : Prop :=
  r.1 = 200 ∨
  (r.1 = 500 ∧ r.2.hasKey "message" = true ∧ r.2.hasKey "details" = true) ∨
  (r.1 = 400 ∧ r.2.hasKey "message" = true ∧ r.2.hasKey "details" = false)

theorem errShape500 (l : String) (e : JsError) :
    handlerErrShape (500, errBody l e) :=
  Or.inr (Or.inl ⟨rfl, rfl, rfl⟩)

theorem errShape200 (v : JValue) : handlerErrShape (200, v) := Or.inl rfl

theorem errShape400 (s : String) :
    handlerErrShape (400, .jobj [("message", .jstr s)]) :=
  Or.inr (Or.inr ⟨rfl, rfl, rfl⟩)

/-- C7 (amended): each of the six journey handlers responds with exactly
one of: 200 on success; 500 with a `\x7bmessage, details\x7d` body for any
failure thrown during processing; or 400 with a message-only body (no
`details`) when a required request field is missing. -/
theorem c7_amended_handler_error_shape
    (envErr viewEnvErr pfapiEnvErr : Option String) (body : JValue)
    (tok : Except JsError String)
    (meta start load nextR prevR fetch available : Except JsError JValue)
    (call : Nat → Except JsError JValue)
    (details : Nat → Except JsError JValue)
    (env : ResolveEnv) (cfg : ConfigSource) :
    handlerErrShape (initHandlerRun envErr tok meta start load call cfg) ∧
    handlerErrShape (loadStepHandlerRun envErr body tok load call cfg) ∧
    handlerErrShape (nextHandlerRun envErr body tok nextR env cfg) ∧
    handlerErrShape (previousHandlerRun envErr body tok prevR env cfg) ∧
    handlerErrShape (viewItemHandlerRun envErr viewEnvErr body tok fetch) ∧
    handlerErrShape (offersHandlerRun pfapiEnvErr tok available details) := by
  refine ⟨?_, ?_, ?_, ?_, ?_, ?_⟩
  · cases envErr with
    | some m => exact errShape500 _ _
    | none =>
      cases tok with
      | error e => exact errShape500 _ _
      | ok t =>
        cases meta with
        | error e => exact errShape500 _ _
        | ok md =>
          cases start with
          | error e => exact errShape500 _ _
          | ok st =>
            unfold initHandlerRun
            dsimp only
            by_cases hx : (st.jget "externalId").truthy
            · rw [if_neg (by simp [hx])]
              cases hres : (loadStepAndRunCustomProcessors load call cfg).2 with
              | error e => exact errShape500 _ _
              | ok step => exact errShape200 _
            · rw [if_pos (by simp [hx])]
              exact errShape500 _ _
  · cases envErr with
    | some m => exact errShape500 _ _
    | none =>
      unfold loadStepHandlerRun
      dsimp only
      by_cases hb : (body.jget "externalId").truthy
      · rw [if_neg (by simp [hb])]
        cases tok with
        | error e => exact errShape500 _ _
        | ok t =>
          cases hres : (loadStepAndRunCustomProcessors load call cfg).2 with
          | error e => exact errShape500 _ _
          | ok step => exact errShape200 _
      · rw [if_pos (by simp [hb])]
        exact errShape400 _
  · cases envErr with
    | some m => exact errShape500 _ _
    | none =>
      unfold nextHandlerRun
      dsimp only
      by_cases hb : (body.jget "externalId").truthy
      · rw [if_neg (by simp [hb])]
        cases tok with
        | error e => exact errShape500 _ _
        | ok t =>
          cases nextR with
          | error e => exact errShape500 _ _
          | ok nr =>
            cases hres : (resolveWithRetry env cfg).1 with
            | error e => exact errShape500 _ _
            | ok step => exact errShape200 _
      · rw [if_pos (by simp [hb])]
        exact errShape400 _
  · cases envErr with
    | some m => exact errShape500 _ _
    | none =>
      unfold previousHandlerRun
      dsimp only
      by_cases hb : (body.jget "externalId").truthy
      · rw [if_neg (by simp [hb])]
        cases tok with
        | error e => exact errShape500 _ _
        | ok t =>
          cases prevR with
          | error e => exact errShape500 _ _
          | ok pr =>
            cases hres : (resolveWithRetry env cfg).1 with
            | error e => exact errShape500 _ _
            | ok step => exact errShape200 _
      · rw [if_pos (by simp [hb])]
        exact errShape400 _
  · cases envErr with
    | some m => exact errShape500 _ _
    | none =>
      cases viewEnvErr with
      | some m => exact errShape500 _ _
      | none =>
        unfold viewItemHandlerRun
        dsimp only
        by_cases hb : (body.jget "externalId").truthy
        · rw [if_neg (by simp [hb])]
          by_cases hj : (body.jget "journeyStep").truthy
          · rw [if_neg (by simp [hj])]
            cases tok with
            | error e => exact errShape500 _ _
            | ok t =>
              cases fetch with
              | error e => exact errShape500 _ _
              | ok vi => exact errShape200 _
          · rw [if_pos (by simp [hj])]
            exact errShape400 _
        · rw [if_pos (by simp [hb])]
          exact errShape400 _
  · cases pfapiEnvErr with
    | some m => exact errShape500 _ _
    | none =>
      cases tok with
      | error e => exact errShape500 _ _
      | ok t =>
        cases available with
        | error e => exact errShape500 _ _
        | ok av =>
          unfold offersHandlerRun
          dsimp only
          cases hres : promiseAllAux details 0 av.asArr.length with
          | error e => exact errShape500 _ _
          | ok ds => exact errShape200 _

/-- C7 counterexample: a `load-step` request without `externalId` is a
failed request answered with status 400 (not a 500-class status) and a
body that has no `details` key — refuting the claim that every failure
yields a 500-class `\x7bmessage, details\x7d` response. -/
theorem c7_counterexample_400_without_details :
    (loadStepHandlerRun none (.jobj []) (.ok "t") (.ok (.jobj []))
      (fun _ => .ok .undefined) .missing).1 = 400 ∧
    (loadStepHandlerRun none (.jobj []) (.ok "t") (.ok (.jobj []))
      (fun _ => .ok .undefined) .missing).2.hasKey "details" = false ∧
    (loadStepHandlerRun none (.jobj []) (.ok "t") (.ok (.jobj []))
      (fun _ => .ok .undefined) .missing).2.hasKey "message" = true :=
  ⟨rfl, rfl, rfl⟩

/-- C8: triggering `go("next")` with the default options while the offer
card list is non-empty and no offer is selected throws the local
validation message — caught and shown locally — and the navigation
request is never issued. -/
theorem c8_offer_validation_blocks_request (offerCards : List JValue)
    (stepAvailableOffers step : JValue)
    (formValues : List (String × JValue)) (stringify : JValue → String)
    (h : offerCards ≠ []) :
    clientGo false "next" defaultGoOptions offerCards ""
        stepAvailableOffers step formValues stringify
      = .rejected "Please select an offer before continuing." ∧
    ∀ (a : String) (vs : List JValue),
      clientGo false "next" defaultGoOptions offerCards ""
          stepAvailableOffers step formValues stringify
        ≠ .request a vs := by
  have hlen : 0 < offerCards.length := List.length_pos.mpr h
  have hmain : clientGo false "next" defaultGoOptions offerCards ""
      stepAvailableOffers step formValues stringify
      = .rejected "Please select an offer before continuing." := by
    unfold clientGo
    rw [if_neg (by simp)]
    dsimp only
    rw [if_pos (by simp [defaultGoOptions, hlen])]
  refine ⟨hmain, fun a vs hcontra => ?_⟩
  rw [hmain] at hcontra
  exact GoOutcome.noConfusion hcontra

def c8ExCard : JValue :=
  .jobj [("offerId", .jstr "offer-1"), ("cardTitle", .jstr "Offer")]

theorem c8_offer_validation_blocks_request_witness :
    clientGo false "next" defaultGoOptions [c8ExCard] "" (.jarr [c8ExCard])
        (.jobj []) [] (fun _ => "")
      = .rejected "Please select an offer before continuing." :=
  (c8_offer_validation_blocks_request [c8ExCard] (.jarr [c8ExCard])
    (.jobj []) [] (fun _ => "") (by simp)).1

/-- C10 (implicit): a missing, blank, unparsable or non-object
configuration loads as `null` and the override stage is the identity;
the identity also holds when no entry matches the step (journey-name
mismatch, blank step name, or no candidate with the step's normalized
name), and when either field list is empty. All paths are total — no
error is ever raised. -/
theorem c10_override_identity_fallbacks (raw : String) (p step cfg ovE : JValue)
    (src : ConfigSource) :
    loadStepOverridesConfig .missing = none ∧
    (raw.trim = "" → loadStepOverridesConfig (.file raw (some p)) = none) ∧
    loadStepOverridesConfig (.file raw none) = none ∧
    ((∀ fs, p ≠ .jobj fs) → (∀ xs, p ≠ .jarr xs) →
      loadStepOverridesConfig (.file raw (some p)) = none) ∧
    (loadStepOverridesConfig src = none →
      applyStepOverrides src step = step) ∧
    ((∀ c, loadStepOverridesConfig src = some c →
        findStepOverride step c = none) →
      applyStepOverrides src step = step) ∧
    ((cfg.jget "journeyName").truthy = true →
      (step.jget "journeyName").truthy = true →
      normalizeStepKey (cfg.jget "journeyName")
        ≠ normalizeStepKey (step.jget "journeyName") →
      findStepOverride step cfg = none) ∧
    (normalizeStepKey (step.jget "journeyStep") = "" →
      findStepOverride step cfg = none) ∧
    ((∀ flow ∈ (cfg.jget "formDrivenFlows").asArr,
        ∀ c ∈ (flow.jget "steps").asArr,
        normalizeStepKey (c.jget "journeyStep")
          ≠ normalizeStepKey (step.jget "journeyStep")) →
      findStepOverride step cfg = none) ∧
    (sourceFieldsOf step = [] → applyFieldOverrides step ovE = step) ∧
    (ovFieldsOf ovE = [] → applyFieldOverrides step ovE = step) := by
  refine ⟨rfl, ?_, ?_, ?_, ?_, ?_, ?_, ?_, ?_, ?_, ?_⟩
  · intro h
    unfold loadStepOverridesConfig
    dsimp only
    rw [if_pos h]
  · unfold loadStepOverridesConfig
    dsimp only
    by_cases h : raw.trim = ""
    · rw [if_pos h]
    · rw [if_neg h]
  · intro hobj harr
    unfold loadStepOverridesConfig
    dsimp only
    by_cases h : raw.trim = ""
    · rw [if_pos h]
    · rw [if_neg h]
      cases p with
      | jobj fs => exact absurd rfl (hobj fs)
      | jarr xs => exact absurd rfl (harr xs)
      | undefined => rfl
      | jnull => rfl
      | jbool b => rfl
      | jnum n => rfl
      | jstr s => rfl
  · intro h
    unfold applyStepOverrides
    rw [h]
  · intro h
    unfold applyStepOverrides
    cases hc : loadStepOverridesConfig src with
    | none => rfl
    | some c =>
      dsimp only
      rw [h c hc]
  · intro h1 h2 hne
    unfold findStepOverride
    by_cases hg : ¬ step.truthy ∨ ¬ cfg.truthy
    · rw [if_pos hg]
    · rw [if_neg hg, if_pos ⟨h1, h2, hne⟩]
  · intro h
    unfold findStepOverride
    by_cases hg : ¬ step.truthy ∨ ¬ cfg.truthy
    · rw [if_pos hg]
    · rw [if_neg hg]
      by_cases hj : (cfg.jget "journeyName").truthy = true ∧
          (step.jget "journeyName").truthy = true ∧
          normalizeStepKey (cfg.jget "journeyName")
            ≠ normalizeStepKey (step.jget "journeyName")
      · rw [if_pos hj]
      · rw [if_neg hj]
        dsimp only
        rw [if_pos h]
  · intro h
    unfold findStepOverride
    by_cases hg : ¬ step.truthy ∨ ¬ cfg.truthy
    · rw [if_pos hg]
    · rw [if_neg hg]
      by_cases hj : (cfg.jget "journeyName").truthy = true ∧
          (step.jget "journeyName").truthy = true ∧
          normalizeStepKey (cfg.jget "journeyName")
            ≠ normalizeStepKey (step.jget "journeyName")
      · rw [if_pos hj]
      · rw [if_neg hj]
        dsimp only
        by_cases hk : normalizeStepKey (step.jget "journeyStep") = ""
        · rw [if_pos hk]
        · rw [if_neg hk]
          rw [List.findSome?_eq_none_iff]
          intro flow hflow
          rw [List.find?_eq_none]
          intro c hc
          simpa using h flow hflow c hc
  · intro h
    unfold applyFieldOverrides
    rw [if_pos (by simp [h])]
  · intro h
    unfold applyFieldOverrides
    by_cases hs : (sourceFieldsOf step).isEmpty
    · rw [if_pos hs]
    · rw [if_neg hs, if_pos (by simp [h])]

theorem c10_override_identity_fallbacks_witness :
    loadStepOverridesConfig (.file "x" (some (.jstr "oops"))) = none ∧
    applyStepOverrides .missing (.jobj [("a", .jstr "b")])
      = .jobj [("a", .jstr "b")] ∧
    findStepOverride (.jobj [("journeyStep", .jstr "Offers-1")])
      (.jobj [("formDrivenFlows", .jarr [])]) = none ∧
    applyFieldOverrides (.jobj [("fields", .jarr [])]) (.jobj [])
      = .jobj [("fields", .jarr [])] := by
  have h := c10_override_identity_fallbacks "x" (.jstr "oops")
    (.jobj [("a", .jstr "b")]) (.jobj [("formDrivenFlows", .jarr [])])
    (.jobj []) .missing
  have h2 := c10_override_identity_fallbacks "x" (.jstr "oops")
    (.jobj [("journeyStep", .jstr "Offers-1")])
    (.jobj [("formDrivenFlows", .jarr [])]) (.jobj []) .missing
  have h3 := c10_override_identity_fallbacks "x" (.jstr "oops")
    (.jobj [("fields", .jarr [])]) (.jobj []) (.jobj []) .missing
  refine ⟨?_, h.2.2.2.2.1 rfl, ?_, h3.2.2.2.2.2.2.2.2.2.2 rfl⟩
  · exact h.2.2.2.1 (fun fs hcontra => JValue.noConfusion hcontra)
      (fun xs hcontra => JValue.noConfusion hcontra)
  · exact h2.2.2.2.2.2.2.2.2.1
      (fun flow hflow => absurd hflow (List.not_mem_nil flow))

/-- The ordering the specification claims for the merged field list:
ascending order value; at equal order, overridden entries before
un-overridden ones; at equal order and override status, ascending
original index. -/
def decSpecLE (a b : FieldDec) : Prop :=
  a.order < b.order ∨
    (a.order = b.order ∧
      ((a.hasOverride = true ∧ b.hasOverride = false) ∨
       (a.hasOverride = b.hasOverride ∧ a.index ≤ b.index)))

theorem decLE_true_iff (a b : FieldDec) : decLEP a b ↔ decSpecLE a b := by
  unfold decLEP decLE decSpecLE
  by_cases h1 : a.order = b.order
  · rw [if_neg (by simp [h1])]
    by_cases h2 : a.hasOverride = b.hasOverride
    · rw [if_neg (by simp [h2])]
      cases ha : a.hasOverride <;> cases hb : b.hasOverride <;>
        simp_all
    · rw [if_pos h2]
      cases ha : a.hasOverride <;> cases hb : b.hasOverride <;>
        simp_all
  · rw [if_pos h1]
    constructor
    · intro h
      exact Or.inl (by simpa using h)
    · intro h
      rcases h with h | ⟨heq, _⟩
      · simpa using h
      · exact absurd heq h1

instance : IsTotal FieldDec decLEP :=
  ⟨fun a b => by
    rw [decLE_true_iff, decLE_true_iff]
    unfold decSpecLE
    cases ha : a.hasOverride <;> cases hb : b.hasOverride <;>
      simp_all <;> omega⟩

instance : IsTrans FieldDec decLEP :=
  ⟨fun a b c h1 h2 => by
    rw [decLE_true_iff] at h1 h2 ⊢
    unfold decSpecLE at h1 h2 ⊢
    cases ha : a.hasOverride <;> cases hb : b.hasOverride <;>
      cases hc : c.hasOverride <;> simp_all <;> omega⟩

/-- An override entry carries an explicit numeric order: `orderIdx` or
`orderIndex` coerces to a finite number. -/
def hasExplicitOrder (f : JValue) : Bool :=
  (jsToNumber (f.jget "orderIdx")).isSome ||
    (jsToNumber (f.jget "orderIndex")).isSome

/-- C3: when every override entry carries an explicit numeric order
(under either synonym `orderIdx`/`orderIndex`), the decorated field list
sorted by the resolver is a permutation of its input arranged ascending by
order value, ties broken by overridden-before-unoverridden and then by
original index; an explicit order makes `getFieldOrder` independent of the
fallback index; and the resolver's merged field list is exactly this sorted
list, projected to fields and filtered by visibility. -/
theorem c3_override_sort_order (step ov : JValue)
    (h : ∀ f ∈ ovFieldsOf ov, hasExplicitOrder f = true) :
    List.Pairwise decSpecLE (sortedDecorated step ov) ∧
    (sortedDecorated step ov).Perm (decorate step ov) ∧
    (∀ f ∈ ovFieldsOf ov, ∀ i j : Nat, getFieldOrder f i = getFieldOrder f j) ∧
    ((sourceFieldsOf step).isEmpty = false →
      (ovFieldsOf ov).isEmpty = false →
      applyFieldOverrides step ov = jset step "fields"
        (.jarr (((sortedDecorated step ov).map FieldDec.field).filter
          visKeep))) := by
  refine ⟨?_, ?_, ?_, ?_⟩
  · exact (List.sorted_insertionSort decLEP (decorate step ov)).imp
      (fun hab => (decLE_true_iff _ _).mp hab)
  · exact List.perm_insertionSort decLEP (decorate step ov)
  · intro f hf i j
    have hx := h f hf
    unfold hasExplicitOrder at hx
    unfold getFieldOrder
    cases h1 : jsToNumber (f.jget "orderIdx") with
    | some n => rfl
    | none =>
      cases h2 : jsToNumber (f.jget "orderIndex") with
      | some n => rfl
      | none => rw [h1, h2] at hx; simp at hx
  · intro h1 h2
    unfold applyFieldOverrides
    rw [if_neg (by simp [h1]), if_neg (by simp [h2])]

def c3ExStep : JValue :=
  .jobj [("journeyStep", .jstr "S"),
         ("fields", .jarr
           [.jobj [("name", .jstr "a")], .jobj [("name", .jstr "b")],
            .jobj [("name", .jstr "c")]])]

def c3ExOv : JValue :=
  .jobj [("fields", .jarr
    [.jobj [("name", .jstr "b"), ("orderIdx", .jnum 1)],
     .jobj [("name", .jstr "a"), ("orderIdx", .jnum 2)]])]

theorem c3_override_sort_order_witness :
    List.Pairwise decSpecLE (sortedDecorated c3ExStep c3ExOv) ∧
    applyFieldOverrides c3ExStep c3ExOv = jset c3ExStep "fields"
      (.jarr (((sortedDecorated c3ExStep c3ExOv).map FieldDec.field).filter
        visKeep)) := by
  have hc := c3_override_sort_order c3ExStep c3ExOv (by decide)
  exact ⟨hc.1, hc.2.2.2 rfl rfl⟩

theorem decorateEntry_index (byName : List (String × OverrideEntry))
    (p : Nat × JValue) : (decorateEntry byName p).index = p.1 := by
  unfold decorateEntry
  dsimp only
  split <;> rfl

theorem decorateEntry_unov (byName : List (String × OverrideEntry))
    (p : Nat × JValue) (h : (decorateEntry byName p).hasOverride = false) :
    (decorateEntry byName p).order = MAX_SAFE_INTEGER ∧
      (decorateEntry byName p).field = p.2 := by
  unfold decorateEntry at *
  dsimp only at *
  revert h
  split <;> intro h
  · exact absurd h (by simp)
  · exact ⟨rfl, rfl⟩

theorem pairwise_fst_lt_enumFrom {α : Type} : ∀ (n : Nat) (l : List α),
    List.Pairwise (fun p q : Nat × α => p.1 < q.1) (List.enumFrom n l)
  | _, [] => List.Pairwise.nil
  | n, a :: l => by
    refine List.Pairwise.cons ?_ (pairwise_fst_lt_enumFrom (n + 1) l)
    intro q hq
    have := List.le_fst_of_mem_enumFrom hq
    show n < q.1
    omega

/-- Strict comparison of original indexes (the indexes of decorated
entries are pairwise distinct). -/
def idxLt (a b : FieldDec) : Prop := a.index < b.index

instance : IsAntisymm FieldDec idxLt :=
  ⟨fun _ _ h1 h2 => absurd h2 (Nat.lt_asymm h1)⟩

theorem decorate_pairwise_idx (step ov : JValue) :
    List.Pairwise idxLt (decorate step ov) := by
  unfold decorate
  rw [List.pairwise_map]
  refine (pairwise_fst_lt_enumFrom 0 (sourceFieldsOf step)).imp ?_
  intro p q hpq
  show (decorateEntry _ p).index < (decorateEntry _ q).index
  rw [decorateEntry_index, decorateEntry_index]
  exact hpq

theorem decorate_unov (step ov : JValue) :
    ∀ d ∈ decorate step ov, d.hasOverride = false →
      d.order = MAX_SAFE_INTEGER ∧ d.field ∈ sourceFieldsOf step := by
  intro d hd hov
  unfold decorate at hd
  obtain ⟨p, hp, hpd⟩ := List.mem_map.mp hd
  subst hpd
  obtain ⟨h1, h2⟩ := decorateEntry_unov _ p hov
  exact ⟨h1, h2 ▸ List.snd_mem_of_mem_enum hp⟩

theorem decLEP_unov_index_le {a b : FieldDec} (h : decLEP a b)
    (ha : a.hasOverride = false) (_hb : b.hasOverride = false)
    (hoa : a.order = MAX_SAFE_INTEGER) (hob : b.order = MAX_SAFE_INTEGER) :
    a.index ≤ b.index := by
  rw [decLE_true_iff] at h
  unfold decSpecLE at h
  rcases h with h | ⟨_, h⟩
  · omega
  · rcases h with ⟨h1, _⟩ | ⟨_, h2⟩
    · rw [ha] at h1
      exact absurd h1 (by simp)
    · exact h2

theorem find?_update (fields : List (String × JValue)) (k : String)
    (w : JValue) :
    (fields.map (fun p => if p.1 = k then (p.1, w) else p)).find?
        (fun p => p.1 = k)
      = (fields.find? (fun p => p.1 = k)).map (fun p => (p.1, w)) := by
  induction fields with
  | nil => rfl
  | cons p fields ih =>
    by_cases hp : p.1 = k
    · simp [List.find?_cons, hp]
    · simp [List.find?_cons, hp, ih]

theorem jget_jset_self (v : JValue) (k : String) (w : JValue) :
    (jset v k w).jget k = w := by
  have hsingle : (JValue.jobj [(k, w)]).jget k = w := by
    simp [jget, List.find?]
  cases v with
  | jobj fields =>
    show (JValue.jobj (setAssoc fields k w)).jget k = w
    unfold setAssoc
    split
    next hany =>
      show JValue.jget _ k = w
      unfold JValue.jget
      dsimp only
      rw [find?_update]
      have hsome : (fields.find? (fun p => p.1 = k)).isSome := by
        rw [List.find?_isSome]
        exact List.any_eq_true.mp hany
      obtain ⟨q, hq⟩ := Option.isSome_iff_exists.mp hsome
      rw [hq]
      rfl
    next hnone =>
      show JValue.jget _ k = w
      unfold JValue.jget
      dsimp only
      rw [List.find?_append]
      have h1 : fields.find? (fun p => p.1 = k) = none := by
        rw [List.find?_eq_none]
        intro p hp hpk
        exact hnone (List.any_eq_true.mpr ⟨p, hp, hpk⟩)
      rw [h1]
      simp [List.find?]
  | undefined => exact hsingle
  | jnull => exact hsingle
  | jbool b => exact hsingle
  | jnum n => exact hsingle
  | jstr s => exact hsingle
  | jarr xs => exact hsingle

/-- C4 (amended): when every decorated sort order is at most
`Number.MAX_SAFE_INTEGER` (the rank given to un-overridden fields): the
un-overridden entries of the sorted list are exactly those of the
decorated input, in their original relative order; no un-overridden entry
ever precedes an overridden one; an un-overridden entry carries the
untouched source field; and when the merge path runs (both field lists
non-empty), the merged field list is the sorted projection filtered by
visibility, so an un-overridden field appears in it if (and, by the
filter, only if) its own `isVisible` is not explicitly `false` — override
omission never hides a field, but the visibility filter drops raw
`isVisible: false` fields even without an override entry. -/
theorem c4_amended_unoverridden_fields (step ov : JValue)
    (horder : ∀ d ∈ decorate step ov, d.order ≤ MAX_SAFE_INTEGER) :
    (sortedDecorated step ov).filter (fun d => !d.hasOverride)
      = (decorate step ov).filter (fun d => !d.hasOverride) ∧
    List.Pairwise (fun a b : FieldDec =>
      b.hasOverride = true → a.hasOverride = true)
      (sortedDecorated step ov) ∧
    (∀ d ∈ decorate step ov, d.hasOverride = false →
      d.field ∈ sourceFieldsOf step) ∧
    ((sourceFieldsOf step).isEmpty = false →
      (ovFieldsOf ov).isEmpty = false →
      ((applyFieldOverrides step ov).jget "fields").asArr
        = ((sortedDecorated step ov).map FieldDec.field).filter visKeep) ∧
    ((sourceFieldsOf step).isEmpty = false →
      (ovFieldsOf ov).isEmpty = false →
      ∀ d ∈ decorate step ov, d.hasOverride = false →
        visKeep d.field = true →
        d.field ∈ ((applyFieldOverrides step ov).jget "fields").asArr) := by
  have hperm : (sortedDecorated step ov).Perm (decorate step ov) :=
    List.perm_insertionSort decLEP (decorate step ov)
  have hsorted : List.Pairwise decLEP (sortedDecorated step ov) :=
    List.sorted_insertionSort decLEP (decorate step ov)
  have hidxdec := decorate_pairwise_idx step ov
  have hfields : (sourceFieldsOf step).isEmpty = false →
      (ovFieldsOf ov).isEmpty = false →
      ((applyFieldOverrides step ov).jget "fields").asArr
        = ((sortedDecorated step ov).map FieldDec.field).filter visKeep := by
    intro h1 h2
    unfold applyFieldOverrides
    rw [if_neg (by simp [h1]), if_neg (by simp [h2])]
    rw [jget_jset_self]
    rfl
  refine ⟨?_, ?_, ?_, hfields, ?_⟩
  · have hpf : ((sortedDecorated step ov).filter
        (fun d => !d.hasOverride)).Perm
        ((decorate step ov).filter (fun d => !d.hasOverride)) :=
      hperm.filter _
    have hsub : List.Sublist
        ((sortedDecorated step ov).filter (fun d => !d.hasOverride))
        (sortedDecorated step ov) := List.filter_sublist _
    have hps : List.Pairwise decLEP ((sortedDecorated step ov).filter
        (fun d => !d.hasOverride)) := List.Pairwise.sublist hsub hsorted
    have hle : List.Pairwise (fun a b : FieldDec => a.index ≤ b.index)
        ((sortedDecorated step ov).filter (fun d => !d.hasOverride)) := by
      refine List.Pairwise.imp_of_mem ?_ hps
      intro a b ha hb hab
      obtain ⟨ha0, hpa⟩ := List.mem_filter.mp ha
      obtain ⟨hb0, hpb⟩ := List.mem_filter.mp hb
      have hpa' : a.hasOverride = false := by simpa using hpa
      have hpb' : b.hasOverride = false := by simpa using hpb
      have ha1 := (decorate_unov step ov a (hperm.mem_iff.mp ha0) hpa').1
      have hb1 := (decorate_unov step ov b (hperm.mem_iff.mp hb0) hpb').1
      exact decLEP_unov_index_le hab hpa' hpb' ha1 hb1
    have hnd_dec : ((decorate step ov).map FieldDec.index).Nodup := by
      rw [List.Nodup, List.pairwise_map]
      exact hidxdec.imp (fun h => Nat.ne_of_lt h)
    have hnd_sorted : ((sortedDecorated step ov).map FieldDec.index).Nodup :=
      ((hperm.map FieldDec.index).nodup_iff).mpr hnd_dec
    have hnd_fs : (((sortedDecorated step ov).filter
        (fun d => !d.hasOverride)).map FieldDec.index).Nodup :=
      List.Nodup.sublist (List.Sublist.map _ hsub) hnd_sorted
    have hne : List.Pairwise (fun a b : FieldDec => a.index ≠ b.index)
        ((sortedDecorated step ov).filter (fun d => !d.hasOverride)) := by
      rw [List.Nodup, List.pairwise_map] at hnd_fs
      exact hnd_fs
    have hlt_s : List.Pairwise idxLt ((sortedDecorated step ov).filter
        (fun d => !d.hasOverride)) :=
      (hle.and hne).imp (fun h => Nat.lt_of_le_of_ne h.1 h.2)
    have hlt_d : List.Pairwise idxLt ((decorate step ov).filter
        (fun d => !d.hasOverride)) :=
      List.Pairwise.sublist (List.filter_sublist _) hidxdec
    exact List.eq_of_perm_of_sorted hpf hlt_s hlt_d
  · refine List.Pairwise.imp_of_mem ?_ hsorted
    intro a b ha hb hab hbov
    by_contra haov
    have haov' : a.hasOverride = false := by simpa using haov
    have ha1 := (decorate_unov step ov a (hperm.mem_iff.mp ha) haov').1
    have hbord := horder b (hperm.mem_iff.mp hb)
    rw [decLE_true_iff] at hab
    unfold decSpecLE at hab
    rcases hab with h | ⟨_, hcase⟩
    · omega
    · rcases hcase with ⟨ha2, _⟩ | ⟨heqov, _⟩
      · rw [haov'] at ha2
        exact absurd ha2 (by simp)
      · rw [haov', hbov] at heqov
        exact absurd heqov (by simp)
  · exact fun d hd hov => (decorate_unov step ov d hd hov).2
  · intro h1 h2 d hd hov hvis
    have hd' : d ∈ sortedDecorated step ov := hperm.mem_iff.mpr hd
    have hf : d.field ∈ (sortedDecorated step ov).map FieldDec.field :=
      List.mem_map_of_mem _ hd'
    rw [hfields h1 h2]
    exact List.mem_filter.mpr ⟨hf, hvis⟩

def c4ExFieldA : JValue :=
  .jobj [("name", .jstr "a"), ("isVisible", .jbool false)]

def c4ExFieldB : JValue := .jobj [("name", .jstr "b")]

def c4ExStep : JValue := .jobj [("fields", .jarr [c4ExFieldA, c4ExFieldB])]

def c4ExOv : JValue :=
  .jobj [("fields", .jarr [.jobj [("name", .jstr "b")]])]

def c4ExStep2 : JValue :=
  .jobj [("fields", .jarr
    [.jobj [("name", .jstr "u")], .jobj [("name", .jstr "v")]])]

def c4ExOv2 : JValue :=
  .jobj [("fields", .jarr
    [.jobj [("name", .jstr "u"), ("orderIdx", .jnum 9007199254740992)]])]

/-- C4 counterexample. First: in a step with fields `a` (raw
`isVisible: false`, no override entry) and `b` (overridden), the merged
list keeps only `b` — the un-overridden field `a` does not appear in the
resolver's output, refuting "a field with no matching override entry ...
is never hidden". Second: with an override order of 2^53 (above
`Number.MAX_SAFE_INTEGER`), the un-overridden field `v` sorts before the
overridden `u`, refuting "is appended after all overridden fields". -/
theorem c4_counterexample_unoverridden_field_hidden :
    ((applyFieldOverrides c4ExStep c4ExOv).jget "fields").asArr.length = 1 ∧
    (sourceFieldsOf c4ExStep).length = 2 ∧
    ((applyFieldOverrides c4ExStep c4ExOv).jget "fields").asArr.all
      (fun f => match f.jget "name" with
                | .jstr "a" => false
                | _ => true) = true ∧
    (decorate c4ExStep c4ExOv).any
      (fun d => !d.hasOverride &&
        match d.field.jget "name" with
        | .jstr "a" => true
        | _ => false) = true ∧
    (sortedDecorated c4ExStep2 c4ExOv2).map FieldDec.hasOverride
      = [false, true] :=
  ⟨rfl, rfl, rfl, rfl, rfl⟩

def c4ExWitStep : JValue :=
  .jobj [("fields", .jarr
    [.jobj [("name", .jstr "x")], .jobj [("name", .jstr "y")]])]

def c4ExWitOv : JValue :=
  .jobj [("fields", .jarr [.jobj [("name", .jstr "y"), ("orderIdx", .jnum 0)]])]

theorem c4_amended_unoverridden_fields_witness :
    (sortedDecorated c4ExWitStep c4ExWitOv).filter (fun d => !d.hasOverride)
      = (decorate c4ExWitStep c4ExWitOv).filter (fun d => !d.hasOverride) ∧
    ((applyFieldOverrides c4ExWitStep c4ExWitOv).jget "fields").asArr
      = ((sortedDecorated c4ExWitStep c4ExWitOv).map FieldDec.field).filter
          visKeep := by
  have h := c4_amended_unoverridden_fields c4ExWitStep c4ExWitOv (by decide)
  exact ⟨h.1, h.2.2.2.1 rfl rfl⟩
